import Mathlib

/-!
Verification of the response-normalization and task-function layer of the
food-recipes application (files `utils.py`, `gemini_api.py`, `config.py`).

Texts are modelled as `List Char` (written `Str` below), matching Python's
code-point-based string operations.  The JSON parser models the behaviour of
Python's `json.loads` on standard JSON documents (strict mode: the RFC 8259
grammar; objects are kept as ordered member lists, numbers and string bodies
are kept as their source lexemes, which is enough to settle every claim,
none of which depends on numeric value identity or escape decoding).
-/

set_option maxRecDepth 20000

abbrev Str := List Char

/-- Whitespace stripped by Python's `str.strip()` (ASCII range): space and
the control characters 9–13 (tab, LF, VT, FF, CR). -/
def pyWs (c : Char) : Bool := c = ' ' || (9 ≤ c.toNat && c.toNat ≤ 13)

/-- Whitespace skipped between tokens by `json.loads`: space, tab, LF, CR. -/
def jsonWs (c : Char) : Bool := c = ' ' || c = '\t' || c = '\n' || c = '\r'

/-- Remove trailing `pyWs` characters (the right half of `str.strip()`). -/
def stripEnd (s : Str) : Str := (s.reverse.dropWhile pyWs).reverse

/-- Python's `str.strip()`: drop leading and trailing whitespace. -/
def pyStrip (s : Str) : Str := stripEnd (s.dropWhile pyWs)

/-- Python's `str.startswith`. -/
def startsWithL (p s : Str) : Bool := p.isPrefixOf s

/-- Python's `str.endswith`. -/
def endsWithL (p s : Str) : Bool := p.reverse.isPrefixOf s.reverse

/-- The cleaning phase of `utils.parse_json_response` (lines 48–56): strip,
drop a leading markdown fence opener (first 7 characters) when present, drop
a trailing fence closer (last 3 characters) when present, strip again. -/
def cleanContent (s : Str) : Str :=
  let c1 := pyStrip s
  let c2 := if startsWithL "```json".data c1 then c1.drop 7 else c1
  let c3 := if endsWithL "```".data c2 then c2.take (c2.length - 3) else c2
  pyStrip c3

/-- The bracket-wrapping phase of `utils.parse_json_response` (lines 58–60):
wrap in `[` … `]` when the text neither starts with `[` nor ends with `]`. -/
def wrapContent (c : Str) : Str :=
  if !startsWithL "[".data c && !endsWithL "]".data c then '[' :: (c ++ [']']) else c

/-- A parsed JSON value.  Number and string payloads are the source lexemes
(for strings: the characters between the quotes, escapes unprocessed). -/
inductive Json where
  | null
  | bool (b : Bool)
  | num (lexeme : Str)
  | str (lexeme : Str)
  | arr (elems : List Json)
  | obj (members : List (Str × Json))

/-- Valid single-character escapes after a backslash in a JSON string. -/
def simpleEscape (c : Char) : Bool :=
  c = '"' || c = '\\' || c = '/' || c = 'b' || c = 'f' || c = 'n' || c = 'r' || c = 't'

/-- Hexadecimal digit test for `\uXXXX` escapes. -/
def hexDigit (c : Char) : Bool :=
  c.isDigit || ('a' ≤ c && c ≤ 'f') || ('A' ≤ c && c ≤ 'F')

/-- Body of a JSON string after the opening quote: returns the raw lexeme and
the input after the closing quote.  Unescaped control characters and invalid
escapes are rejected, as in `json.loads` strict mode. -/
def parseStringBody : Nat → Str → Option (Str × Str)
  | 0, _ => none
  | _, [] => none
  | fuel + 1, c :: rest =>
    if c = '"' then some ([], rest)
    else if c = '\\' then
      match rest with
      | [] => none
      | e :: rest2 =>
        if simpleEscape e then
          match parseStringBody fuel rest2 with
          | some (l, r) => some (c :: e :: l, r)
          | none => none
        else if e = 'u' then
          match rest2 with
          | h1 :: h2 :: h3 :: h4 :: rest3 =>
            if hexDigit h1 && hexDigit h2 && hexDigit h3 && hexDigit h4 then
              match parseStringBody fuel rest3 with
              | some (l, r) => some (c :: e :: h1 :: h2 :: h3 :: h4 :: l, r)
              | none => none
            else none
          | _ => none
        else none
    else if c.toNat < 32 then none
    else
      match parseStringBody fuel rest with
      | some (l, r) => some (c :: l, r)
      | none => none

/-- Integer part of a JSON number: `0`, or a nonzero digit followed by
digits (leading zeros are not absorbed, as in the `json` module's regex). -/
def parseIntPart : Str → Option (Str × Str)
  | [] => none
  | c :: rest =>
    if c = '0' then some (['0'], rest)
    else if c.isDigit then (some (c :: rest.takeWhile Char.isDigit, rest.dropWhile Char.isDigit))
    else none

/-- Optional fractional part `.digits`; consumed only when at least one digit
follows the dot. -/
def parseFracPart (s : Str) : Str × Str :=
  match s with
  | c :: r =>
    if c = '.' then
      match r.takeWhile Char.isDigit, r.dropWhile Char.isDigit with
      | [], _ => ([], s)
      | ds, r2 => (c :: ds, r2)
    else ([], s)
  | [] => ([], s)

/-- Optional exponent part `[eE][+-]?digits`; consumed only when complete. -/
def parseExpPart (s : Str) : Str × Str :=
  match s with
  | c :: r =>
    if c = 'e' || c = 'E' then
      match r with
      | s1 :: r1 =>
        if s1 = '+' || s1 = '-' then
          match r1.takeWhile Char.isDigit, r1.dropWhile Char.isDigit with
          | [], _ => ([], s)
          | ds, r2 => (c :: s1 :: ds, r2)
        else
          match r.takeWhile Char.isDigit, r.dropWhile Char.isDigit with
          | [], _ => ([], s)
          | ds, r2 => (c :: ds, r2)
      | [] => ([], s)
    else ([], s)
  | [] => ([], s)

/-- A JSON number token: optional minus, integer part, optional fraction and
exponent.  Returns the lexeme and the remaining input. -/
def parseNumber (s : Str) : Option (Str × Str) :=
  match s with
  | [] => none
  | c :: r =>
    if c = '-' then
      match parseIntPart r with
      | none => none
      | some (ip, s2) =>
        let fp := parseFracPart s2
        let ep := parseExpPart fp.2
        some (c :: (ip ++ (fp.1 ++ ep.1)), ep.2)
    else
      match parseIntPart (c :: r) with
      | none => none
      | some (ip, s2) =>
        let fp := parseFracPart s2
        let ep := parseExpPart fp.2
        some (ip ++ (fp.1 ++ ep.1), ep.2)

/-- Skip inter-token JSON whitespace. -/
def skipWs (s : Str) : Str := s.dropWhile jsonWs

/-- Parsing modes of the recursive-descent scanner: a single value, the
elements of a non-empty array (up to and including `]`), or the members of a
non-empty object (up to and including `}`). -/
inductive PMode where
  | value
  | items
  | members

/-- Results per parsing mode. -/
inductive PVal where
  | one (v : Json)
  | many (l : List Json)
  | mems (l : List (Str × Json))

/-- Recursive-descent JSON scanner, structural on a fuel counter so that the
kernel can evaluate it.  `PMode.value` skips leading whitespace and
dispatches on the first character exactly as the `json.loads` scanner does. -/
def parseJ : Nat → PMode → Str → Option (PVal × Str)
  | 0, _, _ => none
  | fuel + 1, PMode.value, cs =>
    match skipWs cs with
    | [] => none
    | c :: rest =>
      if c = '[' then
        match skipWs rest with
        | [] => none
        | d :: r2 =>
          if d = ']' then some (PVal.one (Json.arr []), r2)
          else
            match parseJ fuel PMode.items (d :: r2) with
            | some (PVal.many l, r) => some (PVal.one (Json.arr l), r)
            | _ => none
      else if c = '{' then
        match skipWs rest with
        | [] => none
        | d :: r2 =>
          if d = '}' then some (PVal.one (Json.obj []), r2)
          else
            match parseJ fuel PMode.members (d :: r2) with
            | some (PVal.mems l, r) => some (PVal.one (Json.obj l), r)
            | _ => none
      else if c = '"' then
        match parseStringBody (rest.length + 1) rest with
        | some (l, r) => some (PVal.one (Json.str l), r)
        | none => none
      else if c = 't' then
        if "rue".data.isPrefixOf rest then some (PVal.one (Json.bool true), rest.drop 3) else none
      else if c = 'f' then
        if "alse".data.isPrefixOf rest then some (PVal.one (Json.bool false), rest.drop 4) else none
      else if c = 'n' then
        if "ull".data.isPrefixOf rest then some (PVal.one Json.null, rest.drop 3) else none
      else if c = '-' || c.isDigit then
        match parseNumber (c :: rest) with
        | some (lex, r) => some (PVal.one (Json.num lex), r)
        | none => none
      else none
  | fuel + 1, PMode.items, cs =>
    match parseJ fuel PMode.value cs with
    | some (PVal.one v, r) =>
      (match skipWs r with
       | [] => none
       | d :: r2 =>
         if d = ',' then
           match parseJ fuel PMode.items r2 with
           | some (PVal.many l, r3) => some (PVal.many (v :: l), r3)
           | _ => none
         else if d = ']' then some (PVal.many [v], r2)
         else none)
    | _ => none
  | fuel + 1, PMode.members, cs =>
    match skipWs cs with
    | [] => none
    | c :: rest =>
      if c = '"' then
        match parseStringBody (rest.length + 1) rest with
        | some (key, r1) =>
          (match skipWs r1 with
           | [] => none
           | d :: r2 =>
             if d = ':' then
               match parseJ fuel PMode.value r2 with
               | some (PVal.one v, r3) =>
                 (match skipWs r3 with
                  | [] => none
                  | d3 :: r4 =>
                    if d3 = ',' then
                      match parseJ fuel PMode.members r4 with
                      | some (PVal.mems l, r5) => some (PVal.mems ((key, v) :: l), r5)
                      | _ => none
                    else if d3 = '}' then some (PVal.mems [(key, v)], r4)
                    else none)
               | _ => none
             else none)
        | none => none
      else none

/-- Python's `json.loads`: parse one value, then require only whitespace to
remain ("Extra data" otherwise); `none` models a raised `JSONDecodeError`. -/
def json_loads (s : Str) : Option Json :=
  match parseJ (2 * s.length + 2) PMode.value s with
  | some (PVal.one v, r) => if skipWs r = [] then some v else none
  | _ => none

/-- `utils.parse_json_response`: clean, wrap, parse; `none` models the
`return None` on a decode error. -/
def parse_json_response (s : Str) : Option Json :=
  json_loads (wrapContent (cleanContent s))

/-- The "Raw content that caused error" diagnostic that
`utils.parse_json_response` prints on a decode error (line 66): the cleaned
and possibly bracket-wrapped text, available exactly when parsing failed. -/
def parse_json_response_diag (s : Str) : Option Str :=
  match json_loads (wrapContent (cleanContent s)) with
  | some _ => none
  | none => some (wrapContent (cleanContent s))

/-! ### Prompt catalog (`gemini_api.PROMPTS`), embedded verbatim -/

/-- `PROMPTS["en"]["recipe_generation"]`. -/
def en_recipe_generation : Str := ("\n        You are a culinary expert. Based on \"{food_name}\", suggest 5 unique and appealing recipes that one person can cook.\n        Respond ONLY with a JSON array of objects. Each object should have the following keys:\n        - \"recipe_name\": The name of the recipe.\n        - \"description\": A brief, one-sentence description of the recipe.\n        - \"key_ingredients\": A list of 3-5 essential ingredients for the recipe.\n\n        Respond in English. Do not include any text, markdown formatting, or explanations outside of the JSON object.\n        ").data

/-- `PROMPTS["en"]["food_identification"]`. -/
def en_food_identification : Str := ("\n        You are an expert food identifier. Analyze the image and identify the food. If no food is present, state that clearly.\n        Respond ONLY with a JSON object with the following keys for each food:\n        - \"food_name\": The name of the food (e.g., \"Margherita Pizza\", \"No food detected\").\n        - \"description\": A brief, one-sentence description of the food.\n        - \"confidence_score\": An integer from 1 (not confident) to 10 (very confident).\n\n        Respond in English. Do not include any text, markdown formatting, or explanations outside of the JSON object.\n        ").data

/-- `PROMPTS["en"]["recipe_from_list"]` (its blank line carries 8 spaces). -/
def en_recipe_from_list : Str := ("\n        You are a culinary expert. Based on the following list of ingredients \"{food_name_list}\", suggest 5 unique and appealing recipes that one person can cook.\n        Respond ONLY with a JSON array of objects. Each object should have the following keys:\n        - \"recipe_name\": The name of the recipe.\n        - \"description\": A brief, one-sentence description of the recipe.\n        - \"key_ingredients\": A list of 3-5 essential ingredients for the recipe.\n        \n        Respond in English. Do not include any text, markdown formatting, or explanations outside of the JSON object.\n        ").data

/-- `PROMPTS["es"]["recipe_generation"]`. -/
def es_recipe_generation : Str := ("\n        Eres un experto culinario. Basado en \"{food_name}\", sugiere 5 recetas únicas y atractivas que una persona puede cocinar.\n        Responde SÓLO con un array JSON de objetos. Cada objeto debe tener las siguientes claves:\n        - \"recipe_name\": El nombre de la receta.\n        - \"description\": Una breve descripción de la receta en una oración.\n        - \"key_ingredients\": Una lista de 3-5 ingredientes esenciales para la receta.\n\n        Responde en español. No incluyas texto, formato markdown o explicaciones fuera del objeto JSON.\n        ").data

/-- `PROMPTS["es"]["food_identification"]` (its blank line carries 8 spaces). -/
def es_food_identification : Str := ("\n        Eres un experto identificador de alimentos. Analiza la imagen e identifica la comida. Si no hay comida presente, indícalo claramente.\n        Responde SÓLO con un objeto JSON con las siguientes claves para cada comida:\n        - \"food_name\": El nombre de la comida (ej. \"Pizza Margherita\", \"No food detected\").\n        - \"description\": Una breve descripción de la comida en una oración.\n        - \"confidence_score\": Un número entero del 1 (poca confianza) al 10 (mucha confianza).\n        \n        Responde en español. No incluyas texto, formato markdown o explicaciones fuera del objeto JSON.\n        ").data

/-- `PROMPTS["es"]["recipe_from_list"]`. -/
def es_recipe_from_list : Str := ("\n        Eres un experto culinario. Basado en la siguiente lista de ingredientes \"{food_name_list}\", sugiere 5 recetas únicas y atractivas que una persona puede cocinar.\n        Responde SÓLO con un array JSON de objetos. Cada objeto debe tener las siguientes claves:\n        - \"recipe_name\": El nombre de la receta.\n        - \"description\": Una breve descripción de la receta en una oración.\n        - \"key_ingredients\": Una lista de 3-5 ingredientes esenciales para la receta.\n\n        Responde en español. No incluyas texto, formato markdown o explicaciones fuera del objeto JSON.\n        ").data

/-- The inner per-language dictionary of `PROMPTS`; its three task keys are
fixed in the source, so it is a record. -/
structure Prompts where
  recipe_generation : Str
  food_identification : Str
  recipe_from_list : Str

/-- The outer dictionary `PROMPTS`: `none` models the `KeyError` raised by
`PROMPTS[language]` for a language other than `"en"` and `"es"`. -/
def PROMPTS (language : Str) : Option Prompts :=
  if language = "en".data then
    some ⟨en_recipe_generation, en_food_identification, en_recipe_from_list⟩
  else if language = "es".data then
    some ⟨es_recipe_generation, es_food_identification, es_recipe_from_list⟩
  else none

/-! ### String formatting, joining, counting, base64 -/

/-- Replace every occurrence of `needle` (non-overlapping, left to right) by
`repl`; fuel-indexed so the kernel can evaluate it.  With `fuel = s.length`
and a non-empty needle this is total on `s`. -/
def replaceSubF (needle repl : Str) : Nat → Str → Str
  | 0, s => s
  | _, [] => []
  | fuel + 1, c :: rest =>
    if needle.isPrefixOf (c :: rest) then
      repl ++ replaceSubF needle repl fuel ((c :: rest).drop needle.length)
    else c :: replaceSubF needle repl fuel rest

/-- The replacement field `\x7bfield\x7d` of Python's `str.format`. -/
def fieldPattern (field : Str) : Str := Char.ofNat 123 :: (field ++ [Char.ofNat 125])

/-- Python's `template.format(field=value)` for the single-field templates of
the prompt catalog (they contain no other braces). -/
def pyFormat (tpl field value : Str) : Str :=
  replaceSubF (fieldPattern field) value tpl.length tpl

/-- Number of positions at which `needle` occurs as a substring. -/
def countSub (needle : Str) : Str → Nat
  | [] => 0
  | c :: rest => (if needle.isPrefixOf (c :: rest) then 1 else 0) + countSub needle rest

/-- Python's `", ".join`. -/
def joinComma : List Str → Str
  | [] => []
  | [x] => x
  | x :: y :: rest => x ++ (',' :: ' ' :: joinComma (y :: rest))

/-- Standard base64 alphabet. -/
def b64chars : Str := "ABCDEFGHIJKLMNOPQRSTUVWXYZabcdefghijklmnopqrstuvwxyz0123456789+/".data

/-- Character of the base64 alphabet at a 6-bit index. -/
def b64char (n : Nat) : Char := b64chars.getD n 'A'

/-- `base64.b64encode` on a byte sequence (bytes as `Nat` values below 256),
three bytes to four characters with `=` padding. -/
def b64encode : List Nat → Str
  | [] => []
  | [a] => [b64char (a / 4 % 64), b64char (a % 4 * 16), '=', '=']
  | [a, b] => [b64char (a / 4 % 64), b64char (a % 4 * 16 + b / 16), b64char (b % 16 * 4), '=']
  | a :: b :: c :: rest =>
    b64char (a / 4 % 64) :: b64char (a % 4 * 16 + b / 16) :: b64char (b % 16 * 4 + c / 64) ::
      b64char (c % 64) :: b64encode rest

/-- The uploaded-file branch of `utils.image_to_base64` (the only branch
`identify_food` exercises: it always passes `uploaded_file`); `none` models
passing no file, in which case the function falls through and returns None. -/
def image_to_base64 (uploaded_file : Option (List Nat)) : Option Str :=
  match uploaded_file with
  | none => none
  | some bs => some (b64encode bs)

/-! ### Gateway, messages and task functions (`gemini_api.py`) -/

/-- One part of a multimodal message content list. -/
inductive ContentPart where
  | text (s : Str)
  | image_url (url : Str)

/-- `HumanMessage.content`: either a plain string or a list of parts. -/
inductive MsgContent where
  | plain (s : Str)
  | parts (l : List ContentPart)

/-- `langchain_core.messages.HumanMessage`. -/
structure HumanMessage where
  content : MsgContent

/-- `ChatGoogleGenerativeAI` as constructed by `_initialize_llm`. -/
structure ChatGoogleGenerativeAI where
  model : Str
  google_api_key : Str

/-- `config.get_google_api_key`: reads the ambient environment variable,
passed here explicitly (`none` models an absent variable). -/
def get_google_api_key (env : Option Str) : Option Str := env

/-- `gemini_api._initialize_llm`: `None` when the key is absent or empty
(Python falsiness of `api_key`). -/
def _initialize_llm (env : Option Str) (model_name : Str) : Option ChatGoogleGenerativeAI :=
  match get_google_api_key env with
  | none => none
  | some k => if k = [] then none else some ⟨model_name, k⟩

/-- A Python exception escaping a task function. -/
inductive PyError where
  | keyError (key : Str)

/-- What a task function returns: the parsed data, or the error dictionary
with its `error` and optional `raw_response` keys. -/
inductive TaskResult where
  | records (data : Json)
  | errorMap (error : Str) (raw_response : Option Str)

/-- The model gateway: `llm.invoke` on a message list returns the reply's
`content`, or raises (modelled by `Except.error`). -/
abbrev Gateway := List HumanMessage → Except Str Str

/-- `gemini_api.generate_recipes`.  Besides the returned value (or escaping
exception), the second component records every gateway invocation made. -/
def generate_recipes (env : Option Str) (gw : Gateway) (food_name language : Str) :
    Except PyError TaskResult × List (List HumanMessage) :=
  match _initialize_llm env "gemini-2.0-flash".data with
  | none =>
    (Except.ok (TaskResult.errorMap "Failed to initialize Gemini model for recipe generation.".data none), [])
  | some _ =>
    match PROMPTS language with
    | none => (Except.error (PyError.keyError language), [])
    | some ps =>
      let prompt_text := pyFormat ps.recipe_generation "food_name".data food_name
      let message : HumanMessage := ⟨MsgContent.plain prompt_text⟩
      match gw [message] with
      | Except.error e =>
        (Except.ok (TaskResult.errorMap ("An unexpected error occurred during recipe generation: ".data ++ e) none), [[message]])
      | Except.ok content =>
        match parse_json_response content with
        | none =>
          (Except.ok (TaskResult.errorMap "Failed to parse JSON response for recipes from the model.".data (some content)), [[message]])
        | some parsed => (Except.ok (TaskResult.records parsed), [[message]])

/-- `gemini_api.identify_food`. -/
def identify_food (env : Option Str) (gw : Gateway) (uploaded_file_bytes : Option (List Nat))
    (language : Str) : Except PyError TaskResult × List (List HumanMessage) :=
  match _initialize_llm env "gemini-2.0-flash".data with
  | none => (Except.ok (TaskResult.errorMap "Failed to initialize Gemini Vision model.".data none), [])
  | some _ =>
    match image_to_base64 uploaded_file_bytes with
    | none => (Except.ok (TaskResult.errorMap "Failed to encode the image.".data none), [])
    | some base64_image =>
      if base64_image = [] then
        (Except.ok (TaskResult.errorMap "Failed to encode the image.".data none), [])
      else
        match PROMPTS language with
        | none => (Except.error (PyError.keyError language), [])
        | some ps =>
          let message_vision : HumanMessage :=
            ⟨MsgContent.parts [ContentPart.text ps.food_identification,
              ContentPart.image_url ("data:image/jpeg;base64,".data ++ base64_image)]⟩
          match gw [message_vision] with
          | Except.error e =>
            (Except.ok (TaskResult.errorMap ("An unexpected error occurred during food identification: ".data ++ e) none), [[message_vision]])
          | Except.ok content =>
            match parse_json_response content with
            | none =>
              (Except.ok (TaskResult.errorMap "Failed to parse JSON response from the vision model.".data (some content)), [[message_vision]])
            | some identified_foods =>
              match identified_foods with
              | Json.arr l => (Except.ok (TaskResult.records (Json.arr l)), [[message_vision]])
              | other => (Except.ok (TaskResult.records (Json.arr [other])), [[message_vision]])

/-- `gemini_api.suggest_recipes_for_food`. -/
def suggest_recipes_for_food (env : Option Str) (gw : Gateway) (food_name : List Str)
    (language : Str) : Except PyError TaskResult × List (List HumanMessage) :=
  match _initialize_llm env "gemini-2.0-flash".data with
  | none =>
    (Except.ok (TaskResult.errorMap "Failed to initialize Gemini model for recipe generation.".data none), [])
  | some _ =>
    match PROMPTS language with
    | none => (Except.error (PyError.keyError language), [])
    | some ps =>
      let food_name_str := joinComma food_name
      let prompt_text := pyFormat ps.recipe_from_list "food_name_list".data food_name_str
      let message : HumanMessage := ⟨MsgContent.plain prompt_text⟩
      match gw [message] with
      | Except.error e =>
        (Except.ok (TaskResult.errorMap ("An unexpected error occurred during recipe generation: ".data ++ e) none), [[message]])
      | Except.ok content =>
        match parse_json_response content with
        | none =>
          (Except.ok (TaskResult.errorMap "Failed to parse JSON response for recipes from the model.".data (some content)), [[message]])
        | some parsed => (Except.ok (TaskResult.records parsed), [[message]])

/-! ### Basic facts about whitespace, prefixes and stripping -/

/-- JSON inter-token whitespace is also `str.strip()` whitespace. -/
lemma jsonWs_pyWs {c : Char} (h : jsonWs c = true) : pyWs c = true := by
  simp only [jsonWs, Bool.or_eq_true, decide_eq_true_eq] at h
  rcases h with ((rfl | rfl) | rfl) | rfl <;> decide

/-- The head surviving a `dropWhile` fails the predicate. -/
lemma dropWhile_head_not {p : Char → Bool} :
    ∀ (l : Str) {c : Char} {r : Str}, l.dropWhile p = c :: r → p c = false := by
  intro l
  induction l with
  | nil => intro c r h; simp [List.dropWhile] at h
  | cons a t ih =>
    intro c r h
    rw [List.dropWhile_cons] at h
    by_cases hp : p a = true
    · rw [if_pos hp] at h; exact ih h
    · rw [if_neg hp] at h
      obtain ⟨rfl, rfl⟩ := List.cons.inj h
      exact Bool.eq_false_iff.mpr hp

/-- Dropping over a block that satisfies the predicate throughout. -/
lemma dropWhile_append_of_all {p : Char → Bool} {w : Str} (hw : ∀ c ∈ w, p c = true) (x : Str) :
    (w ++ x).dropWhile p = x.dropWhile p := by
  induction w with
  | nil => rfl
  | cons a t ih =>
    have ha : p a = true := hw a (by simp)
    simp only [List.cons_append, List.dropWhile_cons, if_pos ha]
    exact ih (fun c hc => hw c (by simp [hc]))

/-- A `dropWhile` that stops inside the left block is unaffected by a right
extension of the input. -/
lemma dropWhile_append_cons {p : Char → Bool} :
    ∀ (x : Str) {c : Char} {r : Str}, x.dropWhile p = c :: r → ∀ t, (x ++ t).dropWhile p = c :: (r ++ t) := by
  intro x
  induction x with
  | nil => intro c r h; simp [List.dropWhile] at h
  | cons a y ih =>
    intro c r h t
    rw [List.dropWhile_cons] at h
    by_cases hp : p a = true
    · rw [if_pos hp] at h
      simpa only [List.cons_append, List.dropWhile_cons, if_pos hp] using ih h t
    · rw [if_neg hp] at h
      obtain ⟨rfl, rfl⟩ := List.cons.inj h
      simp only [List.cons_append, List.dropWhile_cons, if_neg hp]

/-- `skipWs` ignores a right extension when it stops inside the input. -/
lemma skipWs_append_cons {cs : Str} {c r} (h : skipWs cs = c :: r) (t : Str) :
    skipWs (cs ++ t) = c :: (r ++ t) := dropWhile_append_cons cs h t

/-- Everything in a list that `skipWs` empties is JSON whitespace. -/
lemma skipWs_all {r : Str} (h : skipWs r = []) : ∀ c ∈ r, jsonWs c = true :=
  List.dropWhile_eq_nil_iff.mp h

/-- `skipWs` over an all-whitespace block continues into the extension. -/
lemma skipWs_append_of_nil {cs : Str} (h : skipWs cs = []) (t : Str) :
    skipWs (cs ++ t) = skipWs t := dropWhile_append_of_all (skipWs_all h) t

/-- `skipWs` keeps a string whose head is not JSON whitespace. -/
lemma skipWs_cons_of_not {c : Char} {x : Str} (h : jsonWs c = false) : skipWs (c :: x) = c :: x := by
  simp [skipWs, List.dropWhile_cons, h]

/-- Splitting off the whitespace prefix that `skipWs` removes. -/
lemma skipWs_decomp (cs : Str) :
    cs = cs.takeWhile jsonWs ++ skipWs cs ∧ ∀ c ∈ cs.takeWhile jsonWs, jsonWs c = true :=
  ⟨(List.takeWhile_append_dropWhile jsonWs cs).symm, fun _ hc => List.mem_takeWhile_imp hc⟩

/-- Appending on the left of a list with a known last element. -/
lemma getLast?_append_of_ne {l1 l2 : Str} {d : Char} (h : l2.getLast? = some d) :
    (l1 ++ l2).getLast? = some d := by rw [List.getLast?_append, h]; rfl

/-- A list with a last element is nonempty. -/
lemma ne_nil_of_getLast? {l : Str} {d : Char} (h : l.getLast? = some d) : l ≠ [] := by
  rintro rfl; simp at h

/-- Singleton-needle `startswith` is a head test. -/
lemma startsWith_single {a : Char} {s : Str} : startsWithL [a] s = true ↔ s.head? = some a := by
  cases s with
  | nil => simp [startsWithL, List.isPrefixOf]
  | cons b t =>
    constructor
    · intro h
      have hb : (a == b) = true := by
        by_contra hab
        have : (a == b) = false := Bool.eq_false_iff.mpr hab
        simp [startsWithL, List.isPrefixOf, this] at h
      obtain rfl : a = b := by simpa using hb
      rfl
    · intro h
      obtain rfl : b = a := by simpa using h
      simp [startsWithL, List.isPrefixOf]

/-- Singleton-needle `endswith` is a last-element test. -/
lemma endsWith_single {a : Char} {s : Str} : endsWithL [a] s = true ↔ s.getLast? = some a := by
  unfold endsWithL
  rw [show ([a] : Str).reverse = [a] from rfl]
  rw [show (List.isPrefixOf [a] s.reverse = true) ↔ s.reverse.head? = some a from startsWith_single]
  rw [List.head?_reverse]

/-- `stripEnd` returns a prefix of its input. -/
lemma stripEnd_leading (s : Str) : stripEnd s <+: s := by
  obtain ⟨w, hw⟩ := List.dropWhile_suffix (l := s.reverse) pyWs
  refine ⟨w.reverse, ?_⟩
  have h2 := congrArg List.reverse hw
  simpa [stripEnd, List.reverse_append] using h2

/-- The head of a nonempty prefix is the head of the whole list. -/
lemma prefix_head {l s : Str} (h : l <+: s) {c : Char} {r : Str} (hl : l = c :: r) :
    s.head? = some c := by
  obtain ⟨t, rfl⟩ := h
  subst hl
  rfl

/-- The head of a `pyStrip` result is not whitespace. -/
lemma pyStrip_head {s : Str} {c : Char} {r : Str} (h : pyStrip s = c :: r) : pyWs c = false := by
  unfold pyStrip at h
  have hp := prefix_head (stripEnd_leading _) h
  cases hd : s.dropWhile pyWs with
  | nil => rw [hd] at hp; simp at hp
  | cons a t =>
    rw [hd] at hp
    obtain rfl : a = c := by simpa using hp
    exact dropWhile_head_not _ hd

/-- The last element of a `stripEnd` is the surviving head of the reversed
`dropWhile`. -/
lemma getLast?_stripEnd (s : Str) : (stripEnd s).getLast? = (s.reverse.dropWhile pyWs).head? := by
  unfold stripEnd
  rw [← List.head?_reverse, List.reverse_reverse]

/-- The last element of a nonempty `pyStrip` result is not whitespace. -/
lemma pyStrip_getLast {s l : Str} (h : pyStrip s = l) (hne : l ≠ []) :
    ∃ d, l.getLast? = some d ∧ pyWs d = false := by
  subst h
  unfold pyStrip
  rw [getLast?_stripEnd]
  cases hd : (s.dropWhile pyWs).reverse.dropWhile pyWs with
  | nil =>
    exfalso
    apply hne
    unfold pyStrip stripEnd
    rw [hd]
    rfl
  | cons d t => exact ⟨d, rfl, dropWhile_head_not _ hd⟩

/-- `stripEnd` keeps a list whose last element is not whitespace. -/
lemma stripEnd_of_getLast {x : Str} {d : Char} (h : x.getLast? = some d) (hd : pyWs d = false) :
    stripEnd x = x := by
  unfold stripEnd
  cases hx : x.reverse with
  | nil =>
    have : x = [] := by simpa using congrArg List.reverse hx
    subst this
    simp at h
  | cons a t =>
    have ha : a = d := by
      have := List.head?_reverse x
      rw [hx] at this
      simpa [h] using this
    subst ha
    rw [List.dropWhile_cons, if_neg (by simp [hd])]
    rw [← hx, List.reverse_reverse]

/-- `stripEnd` ignores an all-whitespace right extension. -/
lemma stripEnd_append_ws {x r : Str} (hr : ∀ c ∈ r, pyWs c = true) :
    stripEnd (x ++ r) = stripEnd x := by
  unfold stripEnd
  rw [List.reverse_append]
  rw [dropWhile_append_of_all (fun c hc => hr c (by simpa using hc))]

/-- `pyStrip` ignores an all-whitespace right extension. -/
lemma pyStrip_append_ws {x r : Str} (hr : ∀ c ∈ r, pyWs c = true) :
    pyStrip (x ++ r) = pyStrip x := by
  unfold pyStrip
  cases hd : x.dropWhile pyWs with
  | nil =>
    rw [dropWhile_append_of_all (List.dropWhile_eq_nil_iff.mp hd)]
    rw [List.dropWhile_eq_nil_iff.mpr hr]
  | cons c t =>
    rw [dropWhile_append_cons x hd]
    exact stripEnd_append_ws (x := c :: t) hr

/-- `pyStrip` is idempotent. -/
lemma pyStrip_idem (s : Str) : pyStrip (pyStrip s) = pyStrip s := by
  cases h : pyStrip s with
  | nil => rfl
  | cons c t =>
    have hc := pyStrip_head h
    obtain ⟨d, hd, hdw⟩ := pyStrip_getLast h (by simp)
    unfold pyStrip
    rw [List.dropWhile_cons, if_neg (by simp [hc])]
    exact stripEnd_of_getLast hd hdw

/-- When `dropWhile jsonWs` stops at a non-`pyWs` character, `dropWhile pyWs`
stops at the same place. -/
lemma dropWhile_pyWs_of_jsonWs :
    ∀ (t : Str) {c : Char} {x : Str},
      t.dropWhile jsonWs = c :: x → pyWs c = false → t.dropWhile pyWs = c :: x := by
  intro t
  induction t with
  | nil => intro c x h _; simp [List.dropWhile] at h
  | cons a y ih =>
    intro c x h hc
    rw [List.dropWhile_cons] at h
    by_cases hj : jsonWs a = true
    · rw [if_pos hj] at h
      rw [List.dropWhile_cons, if_pos (jsonWs_pyWs hj)]
      exact ih h hc
    · rw [if_neg hj] at h
      obtain ⟨rfl, rfl⟩ := List.cons.inj h
      rw [List.dropWhile_cons, if_neg (by simp [hc])]

/-! ### Properties of the token parsers -/

/-- A nonempty list whose elements all satisfy `p` has a last element
satisfying `p`. -/
lemma getLast?_all {p : Char → Bool} {l : Str} (hl : l ≠ []) (h : ∀ x ∈ l, p x = true) :
    ∃ d, l.getLast? = some d ∧ p d = true :=
  ⟨l.getLast hl, List.getLast?_eq_getLast l hl, h _ (List.getLast_mem hl)⟩

/-- A string-body parse consumes exactly the lexeme and a closing quote. -/
lemma parseStringBody_decomp :
    ∀ (f : Nat) (cs : Str) {l r : Str}, parseStringBody f cs = some (l, r) → cs = l ++ '"' :: r := by
  intro f
  induction f with
  | zero => intro cs l r h; simp [parseStringBody] at h
  | succ f ih =>
    intro cs l r h
    cases cs with
    | nil => simp [parseStringBody] at h
    | cons c rest =>
      simp only [parseStringBody] at h
      by_cases h1 : c = '"'
      · rw [if_pos h1] at h
        simp only [Option.some.injEq, Prod.mk.injEq] at h
        obtain ⟨rfl, rfl⟩ := h
        subst h1
        rfl
      · rw [if_neg h1] at h
        by_cases h2 : c = '\\'
        · rw [if_pos h2] at h
          cases rest with
          | nil => simp at h
          | cons e rest2 =>
            dsimp only at h
            by_cases h3 : simpleEscape e = true
            · rw [if_pos h3] at h
              cases hsb : parseStringBody f rest2 with
              | none => rw [hsb] at h; simp at h
              | some pr =>
                obtain ⟨l2, r2⟩ := pr
                rw [hsb] at h
                simp only [Option.some.injEq, Prod.mk.injEq] at h
                obtain ⟨rfl, rfl⟩ := h
                rw [ih rest2 hsb]
                rfl
            · rw [if_neg h3] at h
              by_cases h4 : e = 'u'
              · rw [if_pos h4] at h
                cases rest2 with
                | nil => simp at h
                | cons a1 t1 =>
                  cases t1 with
                  | nil => simp at h
                  | cons a2 t2 =>
                    cases t2 with
                    | nil => simp at h
                    | cons a3 t3 =>
                      cases t3 with
                      | nil => simp at h
                      | cons a4 t4 =>
                        dsimp only at h
                        by_cases h5 :
                            (hexDigit a1 && hexDigit a2 && hexDigit a3 && hexDigit a4) = true
                        · rw [if_pos h5] at h
                          cases hsb : parseStringBody f t4 with
                          | none => rw [hsb] at h; simp at h
                          | some pr =>
                            obtain ⟨l2, r2⟩ := pr
                            rw [hsb] at h
                            simp only [Option.some.injEq, Prod.mk.injEq] at h
                            obtain ⟨rfl, rfl⟩ := h
                            rw [ih t4 hsb]
                            rfl
                        · rw [if_neg h5] at h; simp at h
              · rw [if_neg h4] at h; simp at h
        · rw [if_neg h2] at h
          by_cases h5 : c.toNat < 32
          · rw [if_pos h5] at h; simp at h
          · rw [if_neg h5] at h
            cases hsb : parseStringBody f rest with
            | none => rw [hsb] at h; simp at h
            | some pr =>
              obtain ⟨l2, r2⟩ := pr
              rw [hsb] at h
              simp only [Option.some.injEq, Prod.mk.injEq] at h
              obtain ⟨rfl, rfl⟩ := h
              rw [ih rest hsb]
              rfl

/-- A successful string-body parse is preserved by appending input and
raising fuel: the body closes at its quote regardless of what follows. -/
lemma parseStringBody_ext :
    ∀ (f : Nat) {cs l r : Str}, parseStringBody f cs = some (l, r) → ∀ {g : Nat}, f ≤ g →
      ∀ (t : Str), parseStringBody g (cs ++ t) = some (l, r ++ t) := by
  intro f
  induction f with
  | zero => intro cs l r h; simp [parseStringBody] at h
  | succ f ih =>
    intro cs l r h g hg t
    cases g with
    | zero => omega
    | succ g =>
      have hfg : f ≤ g := Nat.succ_le_succ_iff.mp hg
      cases cs with
      | nil => simp [parseStringBody] at h
      | cons c rest =>
        simp only [parseStringBody] at h
        simp only [List.cons_append, parseStringBody]
        by_cases h1 : c = '"'
        · rw [if_pos h1] at h ⊢
          simp only [Option.some.injEq, Prod.mk.injEq] at h
          obtain ⟨rfl, rfl⟩ := h
          rfl
        · rw [if_neg h1] at h ⊢
          by_cases h2 : c = '\\'
          · rw [if_pos h2] at h ⊢
            cases rest with
            | nil => simp at h
            | cons e rest2 =>
              dsimp only [List.append_eq, List.cons_append] at h ⊢
              by_cases h3 : simpleEscape e = true
              · rw [if_pos h3] at h ⊢
                cases hsb : parseStringBody f rest2 with
                | none => rw [hsb] at h; simp at h
                | some pr =>
                  obtain ⟨l2, r2⟩ := pr
                  rw [hsb] at h
                  simp only [Option.some.injEq, Prod.mk.injEq] at h
                  obtain ⟨rfl, rfl⟩ := h
                  simp [List.append_eq, ih hsb hfg t]
              · rw [if_neg h3] at h ⊢
                by_cases h4 : e = 'u'
                · rw [if_pos h4] at h ⊢
                  cases rest2 with
                  | nil => simp at h
                  | cons a1 t1 =>
                    cases t1 with
                    | nil => simp at h
                    | cons a2 t2 =>
                      cases t2 with
                      | nil => simp at h
                      | cons a3 t3 =>
                        cases t3 with
                        | nil => simp at h
                        | cons a4 t4 =>
                          dsimp only [List.append_eq, List.cons_append] at h ⊢
                          by_cases h5 :
                              (hexDigit a1 && hexDigit a2 && hexDigit a3 && hexDigit a4) = true
                          · rw [if_pos h5] at h ⊢
                            cases hsb : parseStringBody f t4 with
                            | none => rw [hsb] at h; simp at h
                            | some pr =>
                              obtain ⟨l2, r2⟩ := pr
                              rw [hsb] at h
                              simp only [Option.some.injEq, Prod.mk.injEq] at h
                              obtain ⟨rfl, rfl⟩ := h
                              simp [List.append_eq, ih hsb hfg t]
                          · rw [if_neg h5] at h; simp at h
                · rw [if_neg h4] at h; simp at h
          · rw [if_neg h2] at h ⊢
            by_cases h5 : c.toNat < 32
            · rw [if_pos h5] at h; simp at h
            · rw [if_neg h5] at h ⊢
              cases hsb : parseStringBody f rest with
              | none => rw [hsb] at h; simp at h
              | some pr =>
                obtain ⟨l2, r2⟩ := pr
                rw [hsb] at h
                simp only [Option.some.injEq, Prod.mk.injEq] at h
                obtain ⟨rfl, rfl⟩ := h
                simp [List.append_eq, ih hsb hfg t]

/-- An integer-part parse consumes a nonempty digit-final lexeme. -/
lemma parseIntPart_spec {s ip r : Str} (h : parseIntPart s = some (ip, r)) :
    s = ip ++ r ∧ ip ≠ [] ∧ ∃ d, ip.getLast? = some d ∧ d.isDigit = true := by
  cases s with
  | nil => simp [parseIntPart] at h
  | cons c rest =>
    simp only [parseIntPart] at h
    by_cases h1 : c = '0'
    · rw [if_pos h1] at h
      simp only [Option.some.injEq, Prod.mk.injEq] at h
      obtain ⟨rfl, rfl⟩ := h
      subst h1
      exact ⟨rfl, by simp, '0', rfl, by decide⟩
    · rw [if_neg h1] at h
      by_cases h2 : c.isDigit = true
      · rw [if_pos h2] at h
        simp only [Option.some.injEq, Prod.mk.injEq] at h
        obtain ⟨rfl, rfl⟩ := h
        refine ⟨by simp [List.takeWhile_append_dropWhile], by simp, ?_⟩
        exact getLast?_all (by simp) (by
          intro x hx
          rcases List.mem_cons.mp hx with rfl | hx2
          · exact h2
          · exact List.mem_takeWhile_imp hx2)
      · rw [if_neg h2] at h; simp at h

/-- The fraction part consumes a prefix and, when nonempty, ends in a digit. -/
lemma parseFracPart_spec (s : Str) :
    s = (parseFracPart s).1 ++ (parseFracPart s).2 ∧
      ((parseFracPart s).1 = [] ∨
        ∃ d, (parseFracPart s).1.getLast? = some d ∧ d.isDigit = true) := by
  cases s with
  | nil => exact ⟨rfl, Or.inl rfl⟩
  | cons c r =>
    simp only [parseFracPart]
    by_cases h1 : c = '.'
    · rw [if_pos h1]
      cases htw : r.takeWhile Char.isDigit with
      | nil => exact ⟨rfl, Or.inl rfl⟩
      | cons d0 ds =>
        dsimp only
        constructor
        · conv_lhs => rw [show r = r.takeWhile Char.isDigit ++ r.dropWhile Char.isDigit from
            (List.takeWhile_append_dropWhile _ _).symm, htw]
          rfl
        · refine Or.inr ?_
          rw [List.getLast?_cons_cons]
          exact getLast?_all (by simp) (by
            intro x hx
            refine List.mem_takeWhile_imp (p := Char.isDigit) (l := r) ?_
            rw [htw]
            exact hx)
    · rw [if_neg h1]; exact ⟨rfl, Or.inl rfl⟩

/-- The exponent part consumes a prefix and, when nonempty, ends in a digit. -/
lemma parseExpPart_spec (s : Str) :
    s = (parseExpPart s).1 ++ (parseExpPart s).2 ∧
      ((parseExpPart s).1 = [] ∨
        ∃ d, (parseExpPart s).1.getLast? = some d ∧ d.isDigit = true) := by
  cases s with
  | nil => exact ⟨rfl, Or.inl rfl⟩
  | cons c r =>
    simp only [parseExpPart]
    by_cases h1 : (c = 'e' || c = 'E') = true
    · rw [if_pos h1]
      cases r with
      | nil => exact ⟨rfl, Or.inl rfl⟩
      | cons s1 r1 =>
        dsimp only
        by_cases h2 : (s1 = '+' || s1 = '-') = true
        · rw [if_pos h2]
          cases htw : r1.takeWhile Char.isDigit with
          | nil => exact ⟨rfl, Or.inl rfl⟩
          | cons d0 ds =>
            dsimp only
            constructor
            · conv_lhs => rw [show r1 = r1.takeWhile Char.isDigit ++ r1.dropWhile Char.isDigit from
                (List.takeWhile_append_dropWhile _ _).symm, htw]
              rfl
            · refine Or.inr ?_
              rw [List.getLast?_cons_cons, List.getLast?_cons_cons]
              exact getLast?_all (by simp) (by
                intro x hx
                refine List.mem_takeWhile_imp (p := Char.isDigit) (l := r1) ?_
                rw [htw]
                exact hx)
        · rw [if_neg h2]
          cases htw : (s1 :: r1).takeWhile Char.isDigit with
          | nil => exact ⟨rfl, Or.inl rfl⟩
          | cons d0 ds =>
            dsimp only
            constructor
            · conv_lhs => rw [show (s1 :: r1 : Str) =
                (s1 :: r1 : Str).takeWhile Char.isDigit ++
                  (s1 :: r1 : Str).dropWhile Char.isDigit from
                (List.takeWhile_append_dropWhile _ _).symm, htw]
              rfl
            · refine Or.inr ?_
              rw [List.getLast?_cons_cons]
              exact getLast?_all (by simp) (by
                intro x hx
                refine List.mem_takeWhile_imp (p := Char.isDigit) (l := s1 :: r1) ?_
                rw [htw]
                exact hx)
    · rw [if_neg h1]; exact ⟨rfl, Or.inl rfl⟩

/-- A number parse consumes exactly its lexeme, which ends in a digit. -/
lemma parseNumber_decomp {s lex r : Str} (h : parseNumber s = some (lex, r)) :
    s = lex ++ r ∧ ∃ d, lex.getLast? = some d ∧ d.isDigit = true := by
  cases s with
  | nil => simp [parseNumber] at h
  | cons c r0 =>
    simp only [parseNumber] at h
    by_cases h1 : c = '-'
    · rw [if_pos h1] at h
      cases hip : parseIntPart r0 with
      | none => rw [hip] at h; simp at h
      | some pr =>
        obtain ⟨ip, s2⟩ := pr
        rw [hip] at h
        dsimp only at h
        simp only [Option.some.injEq, Prod.mk.injEq] at h
        obtain ⟨rfl, rfl⟩ := h
        obtain ⟨his, hine, d1, hd1, hd1d⟩ := parseIntPart_spec hip
        obtain ⟨hfs, hfd⟩ := parseFracPart_spec s2
        obtain ⟨hes, hed⟩ := parseExpPart_spec (parseFracPart s2).2
        constructor
        · rw [List.cons_append]
          congr 1
          rw [his]
          conv_lhs => rw [hfs]
          rw [List.append_assoc]
          congr 1
          conv_lhs => rw [hes]
          rw [← List.append_assoc]
        · rcases hed with he0 | ⟨d3, hd3, hd3d⟩
          · rcases hfd with hf0 | ⟨d2, hd2, hd2d⟩
            · refine ⟨d1, ?_, hd1d⟩
              rw [he0, hf0]
              simp only [List.append_nil]
              rw [show (c :: ip : Str) = [c] ++ ip from rfl]
              exact getLast?_append_of_ne hd1
            · refine ⟨d2, ?_, hd2d⟩
              rw [he0]
              simp only [List.append_nil]
              rw [show (c :: (ip ++ (parseFracPart s2).1) : Str) =
                (c :: ip) ++ (parseFracPart s2).1 from rfl]
              exact getLast?_append_of_ne hd2
          · refine ⟨d3, ?_, hd3d⟩
            rw [show (c :: (ip ++ ((parseFracPart s2).1 ++ (parseExpPart (parseFracPart s2).2).1))
                : Str) =
              (c :: (ip ++ (parseFracPart s2).1)) ++ (parseExpPart (parseFracPart s2).2).1 from
              by simp [List.append_assoc]]
            exact getLast?_append_of_ne hd3
    · rw [if_neg h1] at h
      cases hip : parseIntPart (c :: r0) with
      | none => rw [hip] at h; simp at h
      | some pr =>
        obtain ⟨ip, s2⟩ := pr
        rw [hip] at h
        dsimp only at h
        simp only [Option.some.injEq, Prod.mk.injEq] at h
        obtain ⟨rfl, rfl⟩ := h
        obtain ⟨his, hine, d1, hd1, hd1d⟩ := parseIntPart_spec hip
        obtain ⟨hfs, hfd⟩ := parseFracPart_spec s2
        obtain ⟨hes, hed⟩ := parseExpPart_spec (parseFracPart s2).2
        constructor
        · rw [his]
          conv_lhs => rw [hfs]
          rw [List.append_assoc]
          congr 1
          conv_lhs => rw [hes]
          rw [← List.append_assoc]
        · rcases hed with he0 | ⟨d3, hd3, hd3d⟩
          · rcases hfd with hf0 | ⟨d2, hd2, hd2d⟩
            · refine ⟨d1, ?_, hd1d⟩
              rw [he0, hf0]
              simpa using hd1
            · refine ⟨d2, ?_, hd2d⟩
              rw [he0]
              simp only [List.append_nil]
              exact getLast?_append_of_ne hd2
          · refine ⟨d3, ?_, hd3d⟩
            rw [show (ip ++ ((parseFracPart s2).1 ++ (parseExpPart (parseFracPart s2).2).1)
                : Str) =
              (ip ++ (parseFracPart s2).1) ++ (parseExpPart (parseFracPart s2).2).1 from
              by simp [List.append_assoc]]
            exact getLast?_append_of_ne hd3

/-- Digit spans are unaffected by appending input that starts with `]`. -/
lemma span_digits_append_rb (u : Str) (cs : Str) :
    (cs ++ ']' :: u).takeWhile Char.isDigit = cs.takeWhile Char.isDigit ∧
    (cs ++ ']' :: u).dropWhile Char.isDigit = cs.dropWhile Char.isDigit ++ ']' :: u := by
  induction cs with
  | nil =>
    constructor <;>
      simp [List.takeWhile_cons, List.dropWhile_cons, show (']' : Char).isDigit = false from rfl]
  | cons a t ih =>
    by_cases ha : a.isDigit = true
    · simp [List.cons_append, List.takeWhile_cons, List.dropWhile_cons, ha, ih.1, ih.2]
    · simp [List.cons_append, List.takeWhile_cons, List.dropWhile_cons, ha]

/-- Integer-part parses are unaffected by appending `]`-headed input. -/
lemma parseIntPart_append_rb {cs ip r : Str} (h : parseIntPart cs = some (ip, r)) (u : Str) :
    parseIntPart (cs ++ ']' :: u) = some (ip, r ++ ']' :: u) := by
  cases cs with
  | nil => simp [parseIntPart] at h
  | cons c rest =>
    simp only [parseIntPart] at h
    simp only [List.cons_append, parseIntPart]
    by_cases h1 : c = '0'
    · rw [if_pos h1] at h ⊢
      simp only [Option.some.injEq, Prod.mk.injEq] at h
      obtain ⟨rfl, rfl⟩ := h
      rfl
    · rw [if_neg h1] at h ⊢
      by_cases h2 : c.isDigit = true
      · rw [if_pos h2] at h ⊢
        simp only [Option.some.injEq, Prod.mk.injEq] at h
        obtain ⟨rfl, rfl⟩ := h
        rw [(span_digits_append_rb u rest).1, (span_digits_append_rb u rest).2]
      · rw [if_neg h2] at h; simp at h

/-- Fraction-part parses are unaffected by appending `]`-headed input. -/
lemma parseFracPart_append_rb (u : Str) (cs : Str) :
    parseFracPart (cs ++ ']' :: u) = ((parseFracPart cs).1, (parseFracPart cs).2 ++ ']' :: u) := by
  cases cs with
  | nil => simp [parseFracPart, show ¬((']' : Char) = '.') from by decide]
  | cons c r =>
    simp only [List.cons_append, parseFracPart]
    by_cases h1 : c = '.'
    · simp only [if_pos h1]
      rw [(span_digits_append_rb u r).1, (span_digits_append_rb u r).2]
      cases htw : r.takeWhile Char.isDigit with
      | nil => rfl
      | cons d0 ds => rfl
    · simp only [if_neg h1]
      rfl

/-- Exponent-part parses are unaffected by appending `]`-headed input. -/
lemma parseExpPart_append_rb (u : Str) (cs : Str) :
    parseExpPart (cs ++ ']' :: u) = ((parseExpPart cs).1, (parseExpPart cs).2 ++ ']' :: u) := by
  cases cs with
  | nil =>
    simp [parseExpPart, show ¬((']' : Char) = 'e') from by decide,
      show ¬((']' : Char) = 'E') from by decide]
  | cons c r =>
    simp only [List.cons_append, parseExpPart]
    by_cases h1 : (c = 'e' || c = 'E') = true
    · simp only [if_pos h1]
      cases r with
      | nil =>
        dsimp only [List.nil_append]
        rw [if_neg (by decide : ¬((']' = '+' || ']' = '-') = true))]
        rw [show (']' :: u).takeWhile Char.isDigit = [] from by
          simp [List.takeWhile_cons, show (']' : Char).isDigit = false from rfl]]
        rfl
      | cons s1 r1 =>
        dsimp only [List.cons_append]
        by_cases h2 : (s1 = '+' || s1 = '-') = true
        · simp only [if_pos h2]
          rw [(span_digits_append_rb u r1).1, (span_digits_append_rb u r1).2]
          cases htw : r1.takeWhile Char.isDigit with
          | nil => rfl
          | cons d0 ds => rfl
        · simp only [if_neg h2]
          rw [show (s1 :: (r1 ++ ']' :: u) : Str) = (s1 :: r1 : Str) ++ ']' :: u from rfl]
          rw [(span_digits_append_rb u (s1 :: r1)).1, (span_digits_append_rb u (s1 :: r1)).2]
          cases htw : (s1 :: r1).takeWhile Char.isDigit with
          | nil => rfl
          | cons d0 ds => rfl
    · simp only [if_neg h1]
      rfl

/-- Number parses are unaffected by appending `]`-headed input. -/
lemma parseNumber_append_rb {cs lex r : Str} (h : parseNumber cs = some (lex, r)) (u : Str) :
    parseNumber (cs ++ ']' :: u) = some (lex, r ++ ']' :: u) := by
  cases cs with
  | nil => simp [parseNumber] at h
  | cons c r0 =>
    simp only [parseNumber] at h
    simp only [List.cons_append, parseNumber]
    by_cases h1 : c = '-'
    · rw [if_pos h1] at h ⊢
      cases hip : parseIntPart r0 with
      | none => rw [hip] at h; simp at h
      | some pr =>
        obtain ⟨ip, s2⟩ := pr
        rw [hip] at h
        dsimp only at h
        simp only [Option.some.injEq, Prod.mk.injEq] at h
        obtain ⟨rfl, rfl⟩ := h
        rw [parseIntPart_append_rb hip u]
        dsimp only
        rw [parseFracPart_append_rb u s2]
        dsimp only
        rw [parseExpPart_append_rb u (parseFracPart s2).2]
    · rw [if_neg h1] at h ⊢
      cases hip : parseIntPart (c :: r0) with
      | none => rw [hip] at h; simp at h
      | some pr =>
        obtain ⟨ip, s2⟩ := pr
        rw [hip] at h
        dsimp only at h
        simp only [Option.some.injEq, Prod.mk.injEq] at h
        obtain ⟨rfl, rfl⟩ := h
        rw [show (c :: (r0 ++ ']' :: u) : Str) = (c :: r0 : Str) ++ ']' :: u from rfl]
        rw [parseIntPart_append_rb hip u]
        dsimp only
        rw [parseFracPart_append_rb u s2]
        dsimp only
        rw [parseExpPart_append_rb u (parseFracPart s2).2]

/-! ### Structure of successful `parseJ` runs -/

/-- A successful value parse yields `PVal.one`, and the dispatch character
determines the constructor: `[` exactly for arrays, `{` exactly for
objects. -/
lemma parseJ_value_shape {f : Nat} {cs : Str} {pv : PVal} {r : Str}
    (h : parseJ f PMode.value cs = some (pv, r)) :
    ∃ v, pv = PVal.one v ∧ ∃ c rest, skipWs cs = c :: rest ∧
      ((c = '[') ↔ ∃ l, v = Json.arr l) ∧ ((c = '{') ↔ ∃ m, v = Json.obj m) := by
  cases f with
  | zero => simp [parseJ] at h
  | succ f =>
    simp only [parseJ] at h
    cases hsw : skipWs cs with
    | nil => rw [hsw] at h; simp at h
    | cons c rest =>
      rw [hsw] at h
      dsimp only at h
      by_cases h1 : c = '['
      · rw [if_pos h1] at h
        subst h1
        cases hsw2 : skipWs rest with
        | nil => rw [hsw2] at h; simp at h
        | cons d r2 =>
          rw [hsw2] at h
          dsimp only at h
          by_cases h2 : d = ']'
          · rw [if_pos h2] at h
            simp only [Option.some.injEq, Prod.mk.injEq] at h
            obtain ⟨rfl, rfl⟩ := h
            exact ⟨Json.arr [], rfl, '[', rest, rfl,
              ⟨fun _ => ⟨[], rfl⟩, fun _ => rfl⟩,
              ⟨fun hc => absurd hc (by decide),
               fun hm => by obtain ⟨m, hm⟩ := hm; exact Json.noConfusion hm⟩⟩
          · rw [if_neg h2] at h
            cases hit : parseJ f PMode.items (d :: r2) with
            | none => rw [hit] at h; simp at h
            | some pr =>
              obtain ⟨pv2, r3⟩ := pr
              rw [hit] at h
              cases pv2 with
              | one v => simp at h
              | mems l => simp at h
              | many l =>
                simp only [Option.some.injEq, Prod.mk.injEq] at h
                obtain ⟨rfl, rfl⟩ := h
                exact ⟨Json.arr l, rfl, '[', rest, rfl,
                  ⟨fun _ => ⟨l, rfl⟩, fun _ => rfl⟩,
                  ⟨fun hc => absurd hc (by decide),
                   fun hm => by obtain ⟨m, hm⟩ := hm; exact Json.noConfusion hm⟩⟩
      · rw [if_neg h1] at h
        by_cases h2 : c = '{'
        · rw [if_pos h2] at h
          subst h2
          cases hsw2 : skipWs rest with
          | nil => rw [hsw2] at h; simp at h
          | cons d r2 =>
            rw [hsw2] at h
            dsimp only at h
            by_cases h3 : d = '}'
            · rw [if_pos h3] at h
              simp only [Option.some.injEq, Prod.mk.injEq] at h
              obtain ⟨rfl, rfl⟩ := h
              exact ⟨Json.obj [], rfl, '{', rest, rfl,
                ⟨fun hc => absurd hc (by decide),
                 fun hm => by obtain ⟨m, hm⟩ := hm; exact Json.noConfusion hm⟩,
                ⟨fun _ => ⟨[], rfl⟩, fun _ => rfl⟩⟩
            · rw [if_neg h3] at h
              cases hit : parseJ f PMode.members (d :: r2) with
              | none => rw [hit] at h; simp at h
              | some pr =>
                obtain ⟨pv2, r3⟩ := pr
                rw [hit] at h
                cases pv2 with
                | one v => simp at h
                | many l => simp at h
                | mems l =>
                  simp only [Option.some.injEq, Prod.mk.injEq] at h
                  obtain ⟨rfl, rfl⟩ := h
                  exact ⟨Json.obj l, rfl, '{', rest, rfl,
                    ⟨fun hc => absurd hc (by decide),
                     fun hm => by obtain ⟨m, hm⟩ := hm; exact Json.noConfusion hm⟩,
                    ⟨fun _ => ⟨l, rfl⟩, fun _ => rfl⟩⟩
        · rw [if_neg h2] at h
          by_cases h3 : c = '"'
          · rw [if_pos h3] at h
            cases hsb : parseStringBody (rest.length + 1) rest with
            | none => rw [hsb] at h; simp at h
            | some pr =>
              obtain ⟨l2, r2⟩ := pr
              rw [hsb] at h
              simp only [Option.some.injEq, Prod.mk.injEq] at h
              obtain ⟨rfl, rfl⟩ := h
              exact ⟨Json.str l2, rfl, c, rest, rfl,
                ⟨fun hc => absurd hc h1,
                 fun hm => by obtain ⟨l3, hm⟩ := hm; exact Json.noConfusion hm⟩,
                ⟨fun hc => absurd hc h2,
                 fun hm => by obtain ⟨m, hm⟩ := hm; exact Json.noConfusion hm⟩⟩
          · rw [if_neg h3] at h
            by_cases h4 : c = 't'
            · rw [if_pos h4] at h
              by_cases h5 : List.isPrefixOf "rue".data rest = true
              · rw [if_pos h5] at h
                simp only [Option.some.injEq, Prod.mk.injEq] at h
                obtain ⟨rfl, rfl⟩ := h
                exact ⟨Json.bool true, rfl, c, rest, rfl,
                  ⟨fun hc => absurd hc h1,
                   fun hm => by obtain ⟨l3, hm⟩ := hm; exact Json.noConfusion hm⟩,
                  ⟨fun hc => absurd hc h2,
                   fun hm => by obtain ⟨m, hm⟩ := hm; exact Json.noConfusion hm⟩⟩
              · rw [if_neg h5] at h; simp at h
            · rw [if_neg h4] at h
              by_cases h6 : c = 'f'
              · rw [if_pos h6] at h
                by_cases h7 : List.isPrefixOf "alse".data rest = true
                · rw [if_pos h7] at h
                  simp only [Option.some.injEq, Prod.mk.injEq] at h
                  obtain ⟨rfl, rfl⟩ := h
                  exact ⟨Json.bool false, rfl, c, rest, rfl,
                    ⟨fun hc => absurd hc h1,
                     fun hm => by obtain ⟨l3, hm⟩ := hm; exact Json.noConfusion hm⟩,
                    ⟨fun hc => absurd hc h2,
                     fun hm => by obtain ⟨m, hm⟩ := hm; exact Json.noConfusion hm⟩⟩
                · rw [if_neg h7] at h; simp at h
              · rw [if_neg h6] at h
                by_cases h8 : c = 'n'
                · rw [if_pos h8] at h
                  by_cases h9 : List.isPrefixOf "ull".data rest = true
                  · rw [if_pos h9] at h
                    simp only [Option.some.injEq, Prod.mk.injEq] at h
                    obtain ⟨rfl, rfl⟩ := h
                    exact ⟨Json.null, rfl, c, rest, rfl,
                      ⟨fun hc => absurd hc h1,
                       fun hm => by obtain ⟨l3, hm⟩ := hm; exact Json.noConfusion hm⟩,
                      ⟨fun hc => absurd hc h2,
                       fun hm => by obtain ⟨m, hm⟩ := hm; exact Json.noConfusion hm⟩⟩
                  · rw [if_neg h9] at h; simp at h
                · rw [if_neg h8] at h
                  by_cases h10 : (c = '-' || c.isDigit) = true
                  · rw [if_pos h10] at h
                    cases hpn : parseNumber (c :: rest) with
                    | none => rw [hpn] at h; simp at h
                    | some pr =>
                      obtain ⟨lex, r2⟩ := pr
                      rw [hpn] at h
                      simp only [Option.some.injEq, Prod.mk.injEq] at h
                      obtain ⟨rfl, rfl⟩ := h
                      exact ⟨Json.num lex, rfl, c, rest, rfl,
                        ⟨fun hc => absurd hc h1,
                         fun hm => by obtain ⟨l3, hm⟩ := hm; exact Json.noConfusion hm⟩,
                        ⟨fun hc => absurd hc h2,
                         fun hm => by obtain ⟨m, hm⟩ := hm; exact Json.noConfusion hm⟩⟩
                  · rw [if_neg h10] at h; simp at h

/-- A prefix test survives appending input on the right. -/
lemma isPrefixOf_append {p rest : Str} (h : p.isPrefixOf rest = true) (t : Str) :
    p.isPrefixOf (rest ++ t) = true := by
  rw [List.isPrefixOf_iff_prefix] at h ⊢
  exact h.trans (List.prefix_append rest t)

/-- A successful parse is preserved by appending `]`-headed input (every
token of the grammar is closed by a delimiter, a quote, or a character class
that `]` does not extend) and by raising the fuel. -/
lemma parseJ_ext :
    ∀ (f : Nat) {m : PMode} {cs : Str} {pv : PVal} {r : Str},
      parseJ f m cs = some (pv, r) → ∀ {g : Nat}, f ≤ g → ∀ (u : Str),
        parseJ g m (cs ++ ']' :: u) = some (pv, r ++ ']' :: u) := by
  intro f
  induction f with
  | zero => intro m cs pv r h; simp [parseJ] at h
  | succ f ih =>
    intro m cs pv r h g hg u
    cases g with
    | zero => omega
    | succ g =>
      have hfg : f ≤ g := Nat.succ_le_succ_iff.mp hg
      cases m with
      | value =>
        simp only [parseJ] at h ⊢
        cases hsw : skipWs cs with
        | nil => rw [hsw] at h; simp at h
        | cons c rest =>
          rw [hsw] at h
          rw [skipWs_append_cons hsw (']' :: u)]
          dsimp only at h ⊢
          by_cases h1 : c = '['
          · rw [if_pos h1] at h ⊢
            cases hsw2 : skipWs rest with
            | nil => rw [hsw2] at h; simp at h
            | cons d r2 =>
              rw [hsw2] at h
              rw [skipWs_append_cons hsw2 (']' :: u)]
              dsimp only at h ⊢
              by_cases h2 : d = ']'
              · rw [if_pos h2] at h ⊢
                simp only [Option.some.injEq, Prod.mk.injEq] at h
                obtain ⟨rfl, rfl⟩ := h
                rfl
              · rw [if_neg h2] at h ⊢
                cases hit : parseJ f PMode.items (d :: r2) with
                | none => rw [hit] at h; simp at h
                | some pr =>
                  obtain ⟨pv2, r3⟩ := pr
                  rw [hit] at h
                  cases pv2 with
                  | one v => simp at h
                  | mems l => simp at h
                  | many l =>
                    simp only [Option.some.injEq, Prod.mk.injEq] at h
                    obtain ⟨rfl, rfl⟩ := h
                    have hx := ih hit hfg u
                    rw [show (d :: r2 : Str) ++ ']' :: u = d :: (r2 ++ ']' :: u) from rfl] at hx
                    rw [hx]
          · rw [if_neg h1] at h ⊢
            by_cases h2 : c = '{'
            · rw [if_pos h2] at h ⊢
              cases hsw2 : skipWs rest with
              | nil => rw [hsw2] at h; simp at h
              | cons d r2 =>
                rw [hsw2] at h
                rw [skipWs_append_cons hsw2 (']' :: u)]
                dsimp only at h ⊢
                by_cases h3 : d = '}'
                · rw [if_pos h3] at h ⊢
                  simp only [Option.some.injEq, Prod.mk.injEq] at h
                  obtain ⟨rfl, rfl⟩ := h
                  rfl
                · rw [if_neg h3] at h ⊢
                  cases hit : parseJ f PMode.members (d :: r2) with
                  | none => rw [hit] at h; simp at h
                  | some pr =>
                    obtain ⟨pv2, r3⟩ := pr
                    rw [hit] at h
                    cases pv2 with
                    | one v => simp at h
                    | many l => simp at h
                    | mems l =>
                      simp only [Option.some.injEq, Prod.mk.injEq] at h
                      obtain ⟨rfl, rfl⟩ := h
                      have hx := ih hit hfg u
                      rw [show (d :: r2 : Str) ++ ']' :: u = d :: (r2 ++ ']' :: u) from rfl] at hx
                      rw [hx]
            · rw [if_neg h2] at h ⊢
              by_cases h3 : c = '"'
              · rw [if_pos h3] at h ⊢
                cases hsb : parseStringBody (rest.length + 1) rest with
                | none => rw [hsb] at h; simp at h
                | some pr =>
                  obtain ⟨l2, r2⟩ := pr
                  rw [hsb] at h
                  simp only [Option.some.injEq, Prod.mk.injEq] at h
                  obtain ⟨rfl, rfl⟩ := h
                  have hle : rest.length + 1 ≤ (rest ++ ']' :: u).length + 1 := by
                    simp [List.length_append]
                  rw [parseStringBody_ext (rest.length + 1) hsb hle (']' :: u)]
              · rw [if_neg h3] at h ⊢
                by_cases h4 : c = 't'
                · rw [if_pos h4] at h ⊢
                  by_cases h5 : List.isPrefixOf "rue".data rest = true
                  · rw [if_pos h5] at h
                    rw [if_pos (isPrefixOf_append h5 (']' :: u))]
                    simp only [Option.some.injEq, Prod.mk.injEq] at h
                    obtain ⟨rfl, rfl⟩ := h
                    have h3le : 3 ≤ rest.length := by
                      have := (List.isPrefixOf_iff_prefix.mp h5).length_le
                      simpa using this
                    rw [List.drop_append_of_le_length h3le]
                  · rw [if_neg h5] at h; simp at h
                · rw [if_neg h4] at h ⊢
                  by_cases h6 : c = 'f'
                  · rw [if_pos h6] at h ⊢
                    by_cases h7 : List.isPrefixOf "alse".data rest = true
                    · rw [if_pos h7] at h
                      rw [if_pos (isPrefixOf_append h7 (']' :: u))]
                      simp only [Option.some.injEq, Prod.mk.injEq] at h
                      obtain ⟨rfl, rfl⟩ := h
                      have h4le : 4 ≤ rest.length := by
                        have := (List.isPrefixOf_iff_prefix.mp h7).length_le
                        simpa using this
                      rw [List.drop_append_of_le_length h4le]
                    · rw [if_neg h7] at h; simp at h
                  · rw [if_neg h6] at h ⊢
                    by_cases h8 : c = 'n'
                    · rw [if_pos h8] at h ⊢
                      by_cases h9 : List.isPrefixOf "ull".data rest = true
                      · rw [if_pos h9] at h
                        rw [if_pos (isPrefixOf_append h9 (']' :: u))]
                        simp only [Option.some.injEq, Prod.mk.injEq] at h
                        obtain ⟨rfl, rfl⟩ := h
                        have h3le : 3 ≤ rest.length := by
                          have := (List.isPrefixOf_iff_prefix.mp h9).length_le
                          simpa using this
                        rw [List.drop_append_of_le_length h3le]
                      · rw [if_neg h9] at h; simp at h
                    · rw [if_neg h8] at h ⊢
                      by_cases h10 : (c = '-' || c.isDigit) = true
                      · rw [if_pos h10] at h ⊢
                        cases hpn : parseNumber (c :: rest) with
                        | none => rw [hpn] at h; simp at h
                        | some pr =>
                          obtain ⟨lex, r2⟩ := pr
                          rw [hpn] at h
                          simp only [Option.some.injEq, Prod.mk.injEq] at h
                          obtain ⟨rfl, rfl⟩ := h
                          have hx := parseNumber_append_rb hpn u
                          rw [show (c :: rest : Str) ++ ']' :: u = c :: (rest ++ ']' :: u)
                            from rfl] at hx
                          rw [hx]
                      · rw [if_neg h10] at h; simp at h
      | items =>
        simp only [parseJ] at h ⊢
        cases hv : parseJ f PMode.value cs with
        | none => rw [hv] at h; simp at h
        | some pr =>
          obtain ⟨pv2, r0⟩ := pr
          rw [hv] at h
          cases pv2 with
          | many l => simp at h
          | mems l => simp at h
          | one v =>
            rw [ih hv hfg u]
            dsimp only at h ⊢
            cases hsw : skipWs r0 with
            | nil => rw [hsw] at h; simp at h
            | cons d r2 =>
              rw [hsw] at h
              rw [skipWs_append_cons hsw (']' :: u)]
              dsimp only at h ⊢
              by_cases h1 : d = ','
              · rw [if_pos h1] at h ⊢
                cases hit : parseJ f PMode.items r2 with
                | none => rw [hit] at h; simp at h
                | some pr2 =>
                  obtain ⟨pv3, r3⟩ := pr2
                  rw [hit] at h
                  cases pv3 with
                  | one v2 => simp at h
                  | mems l2 => simp at h
                  | many l2 =>
                    simp only [Option.some.injEq, Prod.mk.injEq] at h
                    obtain ⟨rfl, rfl⟩ := h
                    rw [ih hit hfg u]
              · rw [if_neg h1] at h ⊢
                by_cases h2 : d = ']'
                · rw [if_pos h2] at h ⊢
                  simp only [Option.some.injEq, Prod.mk.injEq] at h
                  obtain ⟨rfl, rfl⟩ := h
                  rfl
                · rw [if_neg h2] at h; simp at h
      | members =>
        simp only [parseJ] at h ⊢
        cases hsw : skipWs cs with
        | nil => rw [hsw] at h; simp at h
        | cons c rest =>
          rw [hsw] at h
          rw [skipWs_append_cons hsw (']' :: u)]
          dsimp only at h ⊢
          by_cases h1 : c = '"'
          · rw [if_pos h1] at h ⊢
            cases hsb : parseStringBody (rest.length + 1) rest with
            | none => rw [hsb] at h; simp at h
            | some pr =>
              obtain ⟨key, r1⟩ := pr
              rw [hsb] at h
              have hle : rest.length + 1 ≤ (rest ++ ']' :: u).length + 1 := by
                simp [List.length_append]
              rw [parseStringBody_ext (rest.length + 1) hsb hle (']' :: u)]
              dsimp only at h ⊢
              cases hsw2 : skipWs r1 with
              | nil => rw [hsw2] at h; simp at h
              | cons d r2 =>
                rw [hsw2] at h
                rw [skipWs_append_cons hsw2 (']' :: u)]
                dsimp only at h ⊢
                by_cases h2 : d = ':'
                · rw [if_pos h2] at h ⊢
                  cases hv : parseJ f PMode.value r2 with
                  | none => rw [hv] at h; simp at h
                  | some pr2 =>
                    obtain ⟨pv2, r3⟩ := pr2
                    rw [hv] at h
                    cases pv2 with
                    | many l => simp at h
                    | mems l => simp at h
                    | one v =>
                      rw [ih hv hfg u]
                      dsimp only at h ⊢
                      cases hsw3 : skipWs r3 with
                      | nil => rw [hsw3] at h; simp at h
                      | cons d3 r4 =>
                        rw [hsw3] at h
                        rw [skipWs_append_cons hsw3 (']' :: u)]
                        dsimp only at h ⊢
                        by_cases h3 : d3 = ','
                        · rw [if_pos h3] at h ⊢
                          cases hmm : parseJ f PMode.members r4 with
                          | none => rw [hmm] at h; simp at h
                          | some pr3 =>
                            obtain ⟨pv4, r5⟩ := pr3
                            rw [hmm] at h
                            cases pv4 with
                            | one v2 => simp at h
                            | many l2 => simp at h
                            | mems l2 =>
                              simp only [Option.some.injEq, Prod.mk.injEq] at h
                              obtain ⟨rfl, rfl⟩ := h
                              rw [ih hmm hfg u]
                        · rw [if_neg h3] at h ⊢
                          by_cases h4 : d3 = '}'
                          · rw [if_pos h4] at h ⊢
                            simp only [Option.some.injEq, Prod.mk.injEq] at h
                            obtain ⟨rfl, rfl⟩ := h
                            rfl
                          · rw [if_neg h4] at h; simp at h
                · rw [if_neg h2] at h; simp at h
          · rw [if_neg h1] at h; simp at h

/-- What a successful parse consumed: for a value, the last consumed
character is `]` exactly for arrays and `}` exactly for objects; element and
member lists always end at their closing delimiter. -/
def consumedSpec : PMode → PVal → Str → Prop
  | PMode.value, PVal.one v, pre =>
      ∃ c, pre.getLast? = some c ∧ ((c = ']') ↔ ∃ l, v = Json.arr l) ∧
        ((c = '}') ↔ ∃ m, v = Json.obj m)
  | PMode.items, PVal.many _, pre => pre.getLast? = some ']'
  | PMode.members, PVal.mems _, pre => pre.getLast? = some '}'
  | _, _, _ => False

/-- Every successful parse splits its input into a consumed prefix
satisfying `consumedSpec` and the returned rest. -/
lemma parseJ_consumed :
    ∀ (f : Nat) {m : PMode} {cs : Str} {pv : PVal} {r : Str},
      parseJ f m cs = some (pv, r) → ∃ pre, cs = pre ++ r ∧ consumedSpec m pv pre := by
  intro f
  induction f with
  | zero => intro m cs pv r h; simp [parseJ] at h
  | succ f ih =>
    intro m cs pv r h
    cases m with
    | value =>
      simp only [parseJ] at h
      cases hsw : skipWs cs with
      | nil => rw [hsw] at h; simp at h
      | cons c rest =>
        rw [hsw] at h
        obtain ⟨hcs, hwws⟩ := skipWs_decomp cs
        rw [hsw] at hcs
        dsimp only at h
        by_cases h1 : c = '['
        · rw [if_pos h1] at h
          subst h1
          cases hsw2 : skipWs rest with
          | nil => rw [hsw2] at h; simp at h
          | cons d r2 =>
            rw [hsw2] at h
            obtain ⟨hrest, hw2s⟩ := skipWs_decomp rest
            rw [hsw2] at hrest
            dsimp only at h
            by_cases h2 : d = ']'
            · rw [if_pos h2] at h
              subst h2
              simp only [Option.some.injEq, Prod.mk.injEq] at h
              obtain ⟨rfl, rfl⟩ := h
              refine ⟨(cs.takeWhile jsonWs ++ '[' :: rest.takeWhile jsonWs) ++ [']'], ?_, ?_⟩
              · conv_lhs => rw [hcs, hrest]
                simp
              · exact ⟨']', List.getLast?_concat _,
                  ⟨fun _ => ⟨[], rfl⟩, fun _ => rfl⟩,
                  ⟨fun hc => absurd hc (by decide),
                   fun hm => by obtain ⟨m, hm⟩ := hm; exact Json.noConfusion hm⟩⟩
            · rw [if_neg h2] at h
              cases hit : parseJ f PMode.items (d :: r2) with
              | none => rw [hit] at h; simp at h
              | some pr =>
                obtain ⟨pv2, r3⟩ := pr
                rw [hit] at h
                cases pv2 with
                | one v => simp at h
                | mems l => simp at h
                | many l =>
                  simp only [Option.some.injEq, Prod.mk.injEq] at h
                  obtain ⟨rfl, rfl⟩ := h
                  obtain ⟨preI, hI1, hI2⟩ := ih hit
                  dsimp only [consumedSpec] at hI2
                  refine ⟨(cs.takeWhile jsonWs ++ '[' :: rest.takeWhile jsonWs) ++ preI, ?_, ?_⟩
                  · conv_lhs => rw [hcs, hrest, hI1]
                    simp
                  · exact ⟨']', getLast?_append_of_ne hI2,
                      ⟨fun _ => ⟨l, rfl⟩, fun _ => rfl⟩,
                      ⟨fun hc => absurd hc (by decide),
                       fun hm => by obtain ⟨m, hm⟩ := hm; exact Json.noConfusion hm⟩⟩
        · rw [if_neg h1] at h
          by_cases h2 : c = '{'
          · rw [if_pos h2] at h
            subst h2
            cases hsw2 : skipWs rest with
            | nil => rw [hsw2] at h; simp at h
            | cons d r2 =>
              rw [hsw2] at h
              obtain ⟨hrest, hw2s⟩ := skipWs_decomp rest
              rw [hsw2] at hrest
              dsimp only at h
              by_cases h3 : d = '}'
              · rw [if_pos h3] at h
                subst h3
                simp only [Option.some.injEq, Prod.mk.injEq] at h
                obtain ⟨rfl, rfl⟩ := h
                refine ⟨(cs.takeWhile jsonWs ++ '{' :: rest.takeWhile jsonWs) ++ ['}'], ?_, ?_⟩
                · conv_lhs => rw [hcs, hrest]
                  simp
                · exact ⟨'}', List.getLast?_concat _,
                    ⟨fun hc => absurd hc (by decide),
                     fun hm => by obtain ⟨m, hm⟩ := hm; exact Json.noConfusion hm⟩,
                    ⟨fun _ => ⟨[], rfl⟩, fun _ => rfl⟩⟩
              · rw [if_neg h3] at h
                cases hit : parseJ f PMode.members (d :: r2) with
                | none => rw [hit] at h; simp at h
                | some pr =>
                  obtain ⟨pv2, r3⟩ := pr
                  rw [hit] at h
                  cases pv2 with
                  | one v => simp at h
                  | many l => simp at h
                  | mems l =>
                    simp only [Option.some.injEq, Prod.mk.injEq] at h
                    obtain ⟨rfl, rfl⟩ := h
                    obtain ⟨preM, hM1, hM2⟩ := ih hit
                    dsimp only [consumedSpec] at hM2
                    refine ⟨(cs.takeWhile jsonWs ++ '{' :: rest.takeWhile jsonWs) ++ preM, ?_, ?_⟩
                    · conv_lhs => rw [hcs, hrest, hM1]
                      simp
                    · exact ⟨'}', getLast?_append_of_ne hM2,
                        ⟨fun hc => absurd hc (by decide),
                         fun hm => by obtain ⟨m, hm⟩ := hm; exact Json.noConfusion hm⟩,
                        ⟨fun _ => ⟨l, rfl⟩, fun _ => rfl⟩⟩
          · rw [if_neg h2] at h
            by_cases h3 : c = '"'
            · rw [if_pos h3] at h
              subst h3
              cases hsb : parseStringBody (rest.length + 1) rest with
              | none => rw [hsb] at h; simp at h
              | some pr =>
                obtain ⟨l2, r2⟩ := pr
                rw [hsb] at h
                simp only [Option.some.injEq, Prod.mk.injEq] at h
                obtain ⟨rfl, rfl⟩ := h
                have hdec := parseStringBody_decomp (rest.length + 1) rest hsb
                refine ⟨(cs.takeWhile jsonWs ++ '"' :: l2) ++ ['"'], ?_, ?_⟩
                · conv_lhs => rw [hcs, hdec]
                  simp
                · exact ⟨'"', List.getLast?_concat _,
                    ⟨fun hc => absurd hc (by decide),
                     fun hm => by obtain ⟨l3, hm⟩ := hm; exact Json.noConfusion hm⟩,
                    ⟨fun hc => absurd hc (by decide),
                     fun hm => by obtain ⟨m, hm⟩ := hm; exact Json.noConfusion hm⟩⟩
            · rw [if_neg h3] at h
              by_cases h4 : c = 't'
              · rw [if_pos h4] at h
                subst h4
                by_cases h5 : List.isPrefixOf "rue".data rest = true
                · rw [if_pos h5] at h
                  simp only [Option.some.injEq, Prod.mk.injEq] at h
                  obtain ⟨rfl, rfl⟩ := h
                  obtain ⟨rest2, hr⟩ := List.isPrefixOf_iff_prefix.mp h5
                  have hdrop : rest.drop 3 = rest2 := by
                    rw [← hr, show (3 : Nat) = ("rue".data).length from rfl, List.drop_left]
                  refine ⟨(cs.takeWhile jsonWs ++ ['t', 'r', 'u']) ++ ['e'], ?_, ?_⟩
                  · rw [hdrop]
                    conv_lhs => rw [hcs, ← hr]
                    simp [show "rue".data = ['r', 'u', 'e'] from rfl]
                  · exact ⟨'e', List.getLast?_concat _,
                      ⟨fun hc => absurd hc (by decide),
                       fun hm => by obtain ⟨l3, hm⟩ := hm; exact Json.noConfusion hm⟩,
                      ⟨fun hc => absurd hc (by decide),
                       fun hm => by obtain ⟨m, hm⟩ := hm; exact Json.noConfusion hm⟩⟩
                · rw [if_neg h5] at h; simp at h
              · rw [if_neg h4] at h
                by_cases h6 : c = 'f'
                · rw [if_pos h6] at h
                  subst h6
                  by_cases h7 : List.isPrefixOf "alse".data rest = true
                  · rw [if_pos h7] at h
                    simp only [Option.some.injEq, Prod.mk.injEq] at h
                    obtain ⟨rfl, rfl⟩ := h
                    obtain ⟨rest2, hr⟩ := List.isPrefixOf_iff_prefix.mp h7
                    have hdrop : rest.drop 4 = rest2 := by
                      rw [← hr, show (4 : Nat) = ("alse".data).length from rfl, List.drop_left]
                    refine ⟨(cs.takeWhile jsonWs ++ ['f', 'a', 'l', 's']) ++ ['e'], ?_, ?_⟩
                    · rw [hdrop]
                      conv_lhs => rw [hcs, ← hr]
                      simp [show "alse".data = ['a', 'l', 's', 'e'] from rfl]
                    · exact ⟨'e', List.getLast?_concat _,
                        ⟨fun hc => absurd hc (by decide),
                         fun hm => by obtain ⟨l3, hm⟩ := hm; exact Json.noConfusion hm⟩,
                        ⟨fun hc => absurd hc (by decide),
                         fun hm => by obtain ⟨m, hm⟩ := hm; exact Json.noConfusion hm⟩⟩
                  · rw [if_neg h7] at h; simp at h
                · rw [if_neg h6] at h
                  by_cases h8 : c = 'n'
                  · rw [if_pos h8] at h
                    subst h8
                    by_cases h9 : List.isPrefixOf "ull".data rest = true
                    · rw [if_pos h9] at h
                      simp only [Option.some.injEq, Prod.mk.injEq] at h
                      obtain ⟨rfl, rfl⟩ := h
                      obtain ⟨rest2, hr⟩ := List.isPrefixOf_iff_prefix.mp h9
                      have hdrop : rest.drop 3 = rest2 := by
                        rw [← hr, show (3 : Nat) = ("ull".data).length from rfl, List.drop_left]
                      refine ⟨(cs.takeWhile jsonWs ++ ['n', 'u', 'l']) ++ ['l'], ?_, ?_⟩
                      · rw [hdrop]
                        conv_lhs => rw [hcs, ← hr]
                        simp [show "ull".data = ['u', 'l', 'l'] from rfl]
                      · exact ⟨'l', List.getLast?_concat _,
                          ⟨fun hc => absurd hc (by decide),
                           fun hm => by obtain ⟨l3, hm⟩ := hm; exact Json.noConfusion hm⟩,
                          ⟨fun hc => absurd hc (by decide),
                           fun hm => by obtain ⟨m, hm⟩ := hm; exact Json.noConfusion hm⟩⟩
                    · rw [if_neg h9] at h; simp at h
                  · rw [if_neg h8] at h
                    by_cases h10 : (c = '-' || c.isDigit) = true
                    · rw [if_pos h10] at h
                      cases hpn : parseNumber (c :: rest) with
                      | none => rw [hpn] at h; simp at h
                      | some pr =>
                        obtain ⟨lex, r2⟩ := pr
                        rw [hpn] at h
                        simp only [Option.some.injEq, Prod.mk.injEq] at h
                        obtain ⟨rfl, rfl⟩ := h
                        obtain ⟨hnd, d0, hd0, hd0d⟩ := parseNumber_decomp hpn
                        refine ⟨cs.takeWhile jsonWs ++ lex, ?_, ?_⟩
                        · conv_lhs => rw [hcs, hnd]
                          simp
                        · exact ⟨d0, getLast?_append_of_ne hd0,
                            ⟨fun hc => absurd hd0d (by rw [hc]; decide),
                             fun hm => by obtain ⟨l3, hm⟩ := hm; exact Json.noConfusion hm⟩,
                            ⟨fun hc => absurd hd0d (by rw [hc]; decide),
                             fun hm => by obtain ⟨m, hm⟩ := hm; exact Json.noConfusion hm⟩⟩
                    · rw [if_neg h10] at h; simp at h
    | items =>
      simp only [parseJ] at h
      cases hv : parseJ f PMode.value cs with
      | none => rw [hv] at h; simp at h
      | some pr =>
        obtain ⟨pv2, r0⟩ := pr
        rw [hv] at h
        cases pv2 with
        | many l => simp at h
        | mems l => simp at h
        | one v =>
          obtain ⟨preV, hV1, hV2⟩ := ih hv
          dsimp only at h
          cases hsw : skipWs r0 with
          | nil => rw [hsw] at h; simp at h
          | cons d r2 =>
            rw [hsw] at h
            obtain ⟨hr0, hw2s⟩ := skipWs_decomp r0
            rw [hsw] at hr0
            dsimp only at h
            by_cases h1 : d = ','
            · rw [if_pos h1] at h
              subst h1
              cases hit : parseJ f PMode.items r2 with
              | none => rw [hit] at h; simp at h
              | some pr2 =>
                obtain ⟨pv3, r3⟩ := pr2
                rw [hit] at h
                cases pv3 with
                | one v2 => simp at h
                | mems l2 => simp at h
                | many l2 =>
                  simp only [Option.some.injEq, Prod.mk.injEq] at h
                  obtain ⟨rfl, rfl⟩ := h
                  obtain ⟨preI, hI1, hI2⟩ := ih hit
                  dsimp only [consumedSpec] at hI2 ⊢
                  refine ⟨(preV ++ (r0.takeWhile jsonWs ++ [','])) ++ preI, ?_, ?_⟩
                  · rw [hV1]
                    conv_lhs => rw [hr0, hI1]
                    simp
                  · exact getLast?_append_of_ne hI2
            · rw [if_neg h1] at h
              by_cases h2 : d = ']'
              · rw [if_pos h2] at h
                subst h2
                simp only [Option.some.injEq, Prod.mk.injEq] at h
                obtain ⟨rfl, rfl⟩ := h
                dsimp only [consumedSpec]
                refine ⟨(preV ++ r0.takeWhile jsonWs) ++ [']'], ?_, List.getLast?_concat _⟩
                rw [hV1]
                conv_lhs => rw [hr0]
                simp
              · rw [if_neg h2] at h; simp at h
    | members =>
      simp only [parseJ] at h
      cases hsw : skipWs cs with
      | nil => rw [hsw] at h; simp at h
      | cons c rest =>
        rw [hsw] at h
        obtain ⟨hcs, hwws⟩ := skipWs_decomp cs
        rw [hsw] at hcs
        dsimp only at h
        by_cases h1 : c = '"'
        · rw [if_pos h1] at h
          subst h1
          cases hsb : parseStringBody (rest.length + 1) rest with
          | none => rw [hsb] at h; simp at h
          | some pr =>
            obtain ⟨key, r1⟩ := pr
            rw [hsb] at h
            have hdec := parseStringBody_decomp (rest.length + 1) rest hsb
            dsimp only at h
            cases hsw2 : skipWs r1 with
            | nil => rw [hsw2] at h; simp at h
            | cons d r2 =>
              rw [hsw2] at h
              obtain ⟨hr1, hw2s⟩ := skipWs_decomp r1
              rw [hsw2] at hr1
              dsimp only at h
              by_cases h2 : d = ':'
              · rw [if_pos h2] at h
                subst h2
                cases hv : parseJ f PMode.value r2 with
                | none => rw [hv] at h; simp at h
                | some pr2 =>
                  obtain ⟨pv2, r3⟩ := pr2
                  rw [hv] at h
                  cases pv2 with
                  | many l => simp at h
                  | mems l => simp at h
                  | one v =>
                    obtain ⟨preV, hV1, hV2⟩ := ih hv
                    dsimp only at h
                    cases hsw3 : skipWs r3 with
                    | nil => rw [hsw3] at h; simp at h
                    | cons d3 r4 =>
                      rw [hsw3] at h
                      obtain ⟨hr3, hw3s⟩ := skipWs_decomp r3
                      rw [hsw3] at hr3
                      dsimp only at h
                      by_cases h3 : d3 = ','
                      · rw [if_pos h3] at h
                        subst h3
                        cases hmm : parseJ f PMode.members r4 with
                        | none => rw [hmm] at h; simp at h
                        | some pr3 =>
                          obtain ⟨pv4, r5⟩ := pr3
                          rw [hmm] at h
                          cases pv4 with
                          | one v2 => simp at h
                          | many l2 => simp at h
                          | mems l2 =>
                            simp only [Option.some.injEq, Prod.mk.injEq] at h
                            obtain ⟨rfl, rfl⟩ := h
                            obtain ⟨preM, hM1, hM2⟩ := ih hmm
                            dsimp only [consumedSpec] at hM2 ⊢
                            refine ⟨(cs.takeWhile jsonWs ++
                              ('"' :: (key ++ ('"' :: (r1.takeWhile jsonWs ++
                                (':' :: (preV ++ (r3.takeWhile jsonWs ++ [',']))))))))
                                ++ preM, ?_, ?_⟩
                            · conv_lhs => rw [hcs, hdec, hr1, hV1, hr3, hM1]
                              simp
                            · exact getLast?_append_of_ne hM2
                      · rw [if_neg h3] at h
                        by_cases h4 : d3 = '}'
                        · rw [if_pos h4] at h
                          subst h4
                          simp only [Option.some.injEq, Prod.mk.injEq] at h
                          obtain ⟨rfl, rfl⟩ := h
                          dsimp only [consumedSpec]
                          refine ⟨(cs.takeWhile jsonWs ++
                            ('"' :: (key ++ ('"' :: (r1.takeWhile jsonWs ++
                              (':' :: (preV ++ r3.takeWhile jsonWs)))))))
                              ++ ['}'], ?_, List.getLast?_concat _⟩
                          conv_lhs => rw [hcs, hdec, hr1, hV1, hr3]
                          simp
                        · rw [if_neg h4] at h; simp at h
              · rw [if_neg h2] at h; simp at h
        · rw [if_neg h1] at h; simp at h

/-! ### Facts about `json_loads` and the cleaning pipeline -/

/-- Unfolding a successful `json_loads`: a full value parse whose rest is
all whitespace. -/
lemma json_loads_spec {s : Str} {v : Json} (h : json_loads s = some v) :
    ∃ r, parseJ (2 * s.length + 2) PMode.value s = some (PVal.one v, r) ∧ skipWs r = [] := by
  unfold json_loads at h
  cases hp : parseJ (2 * s.length + 2) PMode.value s with
  | none => rw [hp] at h; simp at h
  | some pr =>
    obtain ⟨pv, r⟩ := pr
    rw [hp] at h
    cases pv with
    | many l => simp at h
    | mems l => simp at h
    | one v2 =>
      dsimp only at h
      by_cases hr : skipWs r = []
      · rw [if_pos hr] at h
        obtain rfl : v2 = v := by simpa using h
        exact ⟨r, rfl, hr⟩
      · rw [if_neg hr] at h; simp at h

/-- The cleaning phase always ends with a strip. -/
lemma cleanContent_pyStrip (s : Str) : ∃ z, cleanContent s = pyStrip z := ⟨_, rfl⟩

/-- A character that is not Python whitespace is not JSON whitespace. -/
lemma jsonWs_false_of_pyWs_false {c : Char} (h : pyWs c = false) : jsonWs c = false := by
  cases hj : jsonWs c with
  | false => rfl
  | true => exact absurd (jsonWs_pyWs hj) (by simp [h])

/-- A stripped string loses nothing to `skipWs`. -/
lemma skipWs_of_pyStrip {z c0 : _} {ct : Str} (h : pyStrip z = c0 :: ct) :
    skipWs (c0 :: ct) = c0 :: ct :=
  skipWs_cons_of_not (jsonWs_false_of_pyWs_false (pyStrip_head h))

/-- A parsed document's first non-whitespace character is `[` exactly for
arrays and `{` exactly for objects. -/
lemma json_loads_head {s : Str} {v : Json} (h : json_loads s = some v) :
    ∃ c rest, skipWs s = c :: rest ∧ ((c = '[') ↔ ∃ l, v = Json.arr l) ∧
      ((c = '{') ↔ ∃ m, v = Json.obj m) := by
  obtain ⟨r, hp, _⟩ := json_loads_spec h
  obtain ⟨v2, hv2, c, rest, hsw, hi1, hi2⟩ := parseJ_value_shape hp
  obtain rfl : v = v2 := by
    have := PVal.one.inj hv2
    exact this
  exact ⟨c, rest, hsw, hi1, hi2⟩

/-- For a stripped input, a parsed document's last character is `]` exactly
for arrays and `}` exactly for objects (the all-whitespace rest must be
empty, because a stripped string does not end in whitespace). -/
lemma json_loads_last {s : Str} {v : Json} (hs : ∃ z, s = pyStrip z)
    (h : json_loads s = some v) :
    ∃ cc, s.getLast? = some cc ∧ ((cc = ']') ↔ ∃ l, v = Json.arr l) ∧
      ((cc = '}') ↔ ∃ m, v = Json.obj m) := by
  obtain ⟨r, hp, hr⟩ := json_loads_spec h
  obtain ⟨pre, hpre, hspec⟩ := parseJ_consumed _ hp
  dsimp only [consumedSpec] at hspec
  obtain ⟨cc, hlast, hi1, hi2⟩ := hspec
  have hrnil : r = [] := by
    by_contra hrne
    have hd : r.getLast? = some (r.getLast hrne) := List.getLast?_eq_getLast r hrne
    have hsd : s.getLast? = some (r.getLast hrne) := by
      rw [hpre]; exact getLast?_append_of_ne hd
    have hdm : r.getLast hrne ∈ r := List.getLast_mem hrne
    have hdws : pyWs (r.getLast hrne) = true := jsonWs_pyWs (skipWs_all hr _ hdm)
    obtain ⟨z, hz⟩ := hs
    have hsne : s ≠ [] := by
      rw [hpre]
      simp [hrne]
    obtain ⟨d2, hd2, hd2w⟩ := pyStrip_getLast hz.symm hsne
    have : d2 = r.getLast hrne := by
      rw [hsd] at hd2
      simpa using hd2.symm
    rw [this] at hd2w
    rw [hdws] at hd2w
    exact absurd hd2w (by simp)
  subst hrnil
  rw [List.append_nil] at hpre
  subst hpre
  exact ⟨cc, hlast, hi1, hi2⟩

/-- Bracket-wrapping a parseable document yields the one-element array: the
wrapped text parses as `[v]`. -/
lemma json_loads_wrap {c : Str} {v : Json} {c0 : Char} {ct : Str}
    (hc : c = c0 :: ct) (hws : jsonWs c0 = false) (hne : c0 ≠ ']')
    (h : json_loads c = some v) :
    json_loads ('[' :: (c ++ [']'])) = some (Json.arr [v]) := by
  obtain ⟨r, hp, hr⟩ := json_loads_spec h
  unfold json_loads
  have hlen : 2 * ('[' :: (c ++ [']']) : Str).length + 2 = ((2 * c.length + 4) + 1) + 1 := by
    simp [List.length_append]
    omega
  rw [hlen]
  rw [parseJ.eq_def]
  dsimp only
  rw [skipWs_cons_of_not (by decide : jsonWs '[' = false)]
  dsimp only
  rw [if_pos rfl]
  have hsw1 : skipWs (c ++ [']']) = c0 :: (ct ++ [']']) := by
    rw [hc]
    exact skipWs_cons_of_not hws
  rw [hsw1]
  dsimp only
  rw [if_neg hne]
  rw [parseJ.eq_def]
  dsimp only
  have hv2 := parseJ_ext (2 * c.length + 2) hp
    (show 2 * c.length + 2 ≤ 2 * c.length + 4 by omega) []
  rw [show (c ++ ']' :: [] : Str) = c0 :: (ct ++ [']']) from by rw [hc]; rfl] at hv2
  rw [hv2]
  dsimp only
  have hsw2 : skipWs (r ++ ']' :: []) = ']' :: [] := by
    rw [skipWs_append_of_nil hr]
    exact skipWs_cons_of_not (by decide)
  rw [hsw2]
  dsimp only
  rw [if_neg (by decide : ¬(']' = ',')), if_pos rfl]
  rfl

/-- Whenever `parse_json_response` succeeds its value is a JSON array:
wrapped input parses as an array literally, and unwrapped input starts with
`[` or ends with `]`, which for a stripped document forces an array. -/
lemma parse_result_is_arr {s : Str} {v : Json} (h : parse_json_response s = some v) :
    ∃ l, v = Json.arr l := by
  unfold parse_json_response at h
  set c := cleanContent s with hc
  unfold wrapContent at h
  by_cases hw : (!startsWithL "[".data c && !endsWithL "]".data c) = true
  · rw [if_pos hw] at h
    obtain ⟨ch, rest, hsw, hi1, hi2⟩ := json_loads_head h
    rw [skipWs_cons_of_not (by decide : jsonWs '[' = false)] at hsw
    obtain ⟨h1, _⟩ := List.cons.inj hsw
    exact hi1.mp h1.symm
  · rw [if_neg hw] at h
    have hor : startsWithL "[".data c = true ∨ endsWithL "]".data c = true := by
      by_contra hno
      push_neg at hno
      obtain ⟨h1, h2⟩ := hno
      apply hw
      simp [Bool.eq_false_iff.mpr h1, Bool.eq_false_iff.mpr h2]
    rcases hor with hstart | hend
    · rw [show ("[".data : Str) = ['['] from rfl] at hstart
      have hhead : c.head? = some '[' := startsWith_single.mp hstart
      cases hcc : c with
      | nil => rw [hcc] at hhead; simp at hhead
      | cons c0 ct =>
        rw [hcc] at hhead h
        obtain rfl : c0 = '[' := by simpa using hhead
        obtain ⟨ch, rest, hsw, hi1, hi2⟩ := json_loads_head h
        rw [skipWs_cons_of_not (by decide : jsonWs '[' = false)] at hsw
        obtain ⟨h1, _⟩ := List.cons.inj hsw
        exact hi1.mp h1.symm
    · rw [show ("]".data : Str) = [']'] from rfl] at hend
      have hlastc : c.getLast? = some ']' := endsWith_single.mp hend
      obtain ⟨cc, hcl, hi1, hi2⟩ := json_loads_last (by rw [hc]; exact cleanContent_pyStrip s) h
      have hcc : cc = ']' := by
        rw [hcl] at hlastc
        simpa using hlastc
      exact hi1.mp hcc

/-! ### Task-layer helper lemmas -/

/-- With a nonempty key, `_initialize_llm` constructs the model. -/
lemma _initialize_llm_some {k : Str} (hk : k ≠ []) (n : Str) :
    _initialize_llm (some k) n = some ⟨n, k⟩ := by
  simp [_initialize_llm, get_google_api_key, hk]

/-- Base64 of a nonempty byte string is nonempty. -/
lemma b64encode_ne_nil {bs : List Nat} (h : bs ≠ []) : b64encode bs ≠ [] := by
  cases bs with
  | nil => exact absurd rfl h
  | cons a t =>
    cases t with
    | nil => simp [b64encode]
    | cons b t2 =>
      cases t2 with
      | nil => simp [b64encode]
      | cons c t3 => simp [b64encode]

/-- `joinComma` is the standard `", "`-join. -/
lemma joinComma_intercalate : ∀ (l : List Str), joinComma l = List.intercalate ", ".data l := by
  intro l
  induction l with
  | nil => simp [joinComma, List.intercalate]
  | cons x t ih =>
    cases t with
    | nil => simp [joinComma, List.intercalate]
    | cons y r =>
      have h2 : List.intercalate ", ".data (x :: y :: r) =
          x ++ ", ".data ++ List.intercalate ", ".data (y :: r) := by
        simp [List.intercalate, List.intersperse]
      show x ++ (',' :: ' ' :: joinComma (y :: r)) = _
      rw [h2, ← ih]
      simp [List.append_assoc]

/-- The head of a list with a nonempty prefix is the prefix's head. -/
lemma isPrefixOf_head {a : Char} {p s : Str} (h : (a :: p).isPrefixOf s = true) :
    s.head? = some a := by
  cases s with
  | nil => simp [List.isPrefixOf] at h
  | cons b t =>
    have hab : (a == b) = true := by
      by_contra hx
      have : (a == b) = false := Bool.eq_false_iff.mpr hx
      simp [List.isPrefixOf, this] at h
    obtain rfl : a = b := by simpa using hab
    rfl

/-! ### The claims -/

/-- C2 (counterexample): for the cleaned text `[1, 2`, which starts with `[`
but does not end with `]`, `parse_json_response` applies no wrap, contrary to
the claim that the wrap applies whenever the text does not both start with
`[` and end with `]`. -/
theorem C2_counterexample :
    cleanContent "[1, 2".data = "[1, 2".data ∧
    startsWithL "[".data (cleanContent "[1, 2".data) = true ∧
    endsWithL "]".data (cleanContent "[1, 2".data) = false ∧
    wrapContent (cleanContent "[1, 2".data) = cleanContent "[1, 2".data := by
  exact ⟨rfl, rfl, rfl, rfl⟩

/-- C2 (amended): the cleaned text is wrapped in `[` … `]` exactly when it
neither starts with `[` nor ends with `]`; text that starts with `[` or ends
with `]` is left unwrapped. -/
theorem C2_amended_wrap_iff (c : Str) :
    (wrapContent c = '[' :: (c ++ [']']) ↔
      (startsWithL "[".data c = false ∧ endsWithL "]".data c = false)) ∧
    ((startsWithL "[".data c = true ∨ endsWithL "]".data c = true) → wrapContent c = c) := by
  constructor
  · constructor
    · intro hw
      by_cases hcond : (!startsWithL "[".data c && !endsWithL "]".data c) = true
      · simpa [Bool.and_eq_true, Bool.not_eq_true'] using hcond
      · exfalso
        have hid : wrapContent c = c := by
          unfold wrapContent
          rw [if_neg hcond]
        rw [hid] at hw
        have := congrArg List.length hw
        simp [List.length_append] at this
        omega
    · intro hse
      unfold wrapContent
      rw [if_pos (by simp [hse.1, hse.2])]
  · intro hor
    unfold wrapContent
    rw [if_neg ?_]
    intro hcond
    simp only [Bool.and_eq_true, Bool.not_eq_true'] at hcond
    rcases hor with hx | hx
    · rw [hcond.1] at hx; exact absurd hx (by simp)
    · rw [hcond.2] at hx; exact absurd hx (by simp)

/-- Witness for C2 (amended) at concrete inputs. -/
theorem C2_amended_wrap_iff_witness :
    wrapContent "garbage".data = '[' :: ("garbage".data ++ [']']) ∧
    wrapContent "[1, 2]".data = "[1, 2]".data :=
  ⟨(C2_amended_wrap_iff "garbage".data).1.mpr (by decide),
   (C2_amended_wrap_iff "[1, 2]".data).2 (Or.inl (by decide))⟩

/-- C4: with the credential absent or empty, every task function returns the
initialization-failure error map and performs zero gateway calls. -/
theorem C4_missing_credential (env : Option Str) (h : env = none ∨ env = some [])
    (gw : Gateway) (food_name language : Str) (bytes : Option (List Nat)) (foods : List Str) :
    generate_recipes env gw food_name language =
      (Except.ok (TaskResult.errorMap
        "Failed to initialize Gemini model for recipe generation.".data none), []) ∧
    identify_food env gw bytes language =
      (Except.ok (TaskResult.errorMap "Failed to initialize Gemini Vision model.".data none),
        []) ∧
    suggest_recipes_for_food env gw foods language =
      (Except.ok (TaskResult.errorMap
        "Failed to initialize Gemini model for recipe generation.".data none), []) := by
  rcases h with rfl | rfl <;> exact ⟨rfl, rfl, rfl⟩

/-- Witness for C4 at concrete inputs. -/
theorem C4_missing_credential_witness :
    identify_food none (fun _ => Except.ok []) (some [255, 216, 255]) "en".data =
      (Except.ok (TaskResult.errorMap "Failed to initialize Gemini Vision model.".data none),
        []) :=
  (C4_missing_credential none (Or.inl rfl) (fun _ => Except.ok []) "Pizza".data "en".data
    (some [255, 216, 255]) ["Pizza".data]).2.1

/-- C7: when the gateway raises, every task function catches the fault and
returns an error map with no `raw_response`; nothing propagates. -/
theorem C7_gateway_fault (k : Str) (hk : k ≠ []) (language : Str) (ps : Prompts)
    (hl : PROMPTS language = some ps) (e food_name : Str) (bs : List Nat) (hb : bs ≠ [])
    (foods : List Str) :
    (generate_recipes (some k) (fun _ => Except.error e) food_name language).1 =
      Except.ok (TaskResult.errorMap
        ("An unexpected error occurred during recipe generation: ".data ++ e) none) ∧
    (identify_food (some k) (fun _ => Except.error e) (some bs) language).1 =
      Except.ok (TaskResult.errorMap
        ("An unexpected error occurred during food identification: ".data ++ e) none) ∧
    (suggest_recipes_for_food (some k) (fun _ => Except.error e) foods language).1 =
      Except.ok (TaskResult.errorMap
        ("An unexpected error occurred during recipe generation: ".data ++ e) none) := by
  refine ⟨?_, ?_, ?_⟩
  · simp only [generate_recipes]
    rw [_initialize_llm_some hk]
    dsimp only
    rw [hl]
  · simp only [identify_food]
    rw [_initialize_llm_some hk]
    dsimp only [image_to_base64]
    rw [if_neg (b64encode_ne_nil hb)]
    rw [hl]
  · simp only [suggest_recipes_for_food]
    rw [_initialize_llm_some hk]
    dsimp only
    rw [hl]

/-- Witness for C7 at concrete inputs. -/
theorem C7_gateway_fault_witness :
    (identify_food (some ['k']) (fun _ => Except.error "boom".data) (some [255]) "en".data).1 =
      Except.ok (TaskResult.errorMap
        ("An unexpected error occurred during food identification: ".data ++ "boom".data)
        none) :=
  (C7_gateway_fault ['k'] (by decide) "en".data
    ⟨en_recipe_generation, en_food_identification, en_recipe_from_list⟩ rfl "boom".data
    "Pizza".data [255] (by decide) []).2.1

/-- C8: `suggest_recipes_for_food` renders its prompt from the ordered food
names joined with `", "`, and the Spanish scenario prompt for
`["Pizza", "Salad"]` contains the substring `Pizza, Salad` exactly once. -/
theorem C8_suggest_joins (env : Option Str) (k : Str) (henv : env = some k) (hk : k ≠ [])
    (gw : Gateway) (names : List Str) (language : Str) (ps : Prompts)
    (hl : PROMPTS language = some ps) :
    (suggest_recipes_for_food env gw names language).2 =
      [[⟨MsgContent.plain (pyFormat ps.recipe_from_list "food_name_list".data
        (joinComma names))⟩]] ∧
    joinComma names = List.intercalate ", ".data names ∧
    countSub "Pizza, Salad".data
      (pyFormat es_recipe_from_list "food_name_list".data
        (joinComma ["Pizza".data, "Salad".data])) = 1 := by
  subst henv
  refine ⟨?_, joinComma_intercalate names, by decide⟩
  simp only [suggest_recipes_for_food]
  rw [_initialize_llm_some hk]
  dsimp only
  rw [hl]
  dsimp only
  cases hgw : gw [⟨MsgContent.plain (pyFormat ps.recipe_from_list "food_name_list".data
      (joinComma names))⟩] with
  | error e => rfl
  | ok content =>
    dsimp only
    cases hp : parse_json_response content with
    | none => rfl
    | some j => rfl

/-- Witness for C8 at the scenario inputs. -/
theorem C8_suggest_joins_witness :
    countSub "Pizza, Salad".data
      (pyFormat es_recipe_from_list "food_name_list".data
        (joinComma ["Pizza".data, "Salad".data])) = 1 :=
  (C8_suggest_joins (some ['k']) ['k'] rfl (by decide) (fun _ => Except.ok [])
    ["Pizza".data, "Salad".data] "es".data
    ⟨es_recipe_generation, es_food_identification, es_recipe_from_list⟩ rfl).2.2

/-- C9: with image bytes present, `identify_food` issues exactly one gateway
call whose content carries the instruction text and the base64 data URI of
the image, whatever the gateway then does. -/
theorem C9_identify_single_call (k : Str) (hk : k ≠ []) (gw : Gateway) (bs : List Nat)
    (hb : bs ≠ []) (language : Str) (ps : Prompts) (hl : PROMPTS language = some ps) :
    (identify_food (some k) gw (some bs) language).2 =
      [[⟨MsgContent.parts [ContentPart.text ps.food_identification,
        ContentPart.image_url ("data:image/jpeg;base64,".data ++ b64encode bs)]⟩]] := by
  simp only [identify_food]
  rw [_initialize_llm_some hk]
  dsimp only [image_to_base64]
  rw [if_neg (b64encode_ne_nil hb)]
  rw [hl]
  dsimp only
  cases hgw : gw [⟨MsgContent.parts [ContentPart.text ps.food_identification,
      ContentPart.image_url ("data:image/jpeg;base64,".data ++ b64encode bs)]⟩] with
  | error e => rfl
  | ok content =>
    dsimp only
    cases hp : parse_json_response content with
    | none => rfl
    | some j => cases j <;> rfl

/-- Witness for C9 at concrete inputs (three JPEG-header bytes). -/
theorem C9_identify_single_call_witness :
    (identify_food (some ['k']) (fun _ => Except.ok "[]".data) (some [255, 216, 255])
      "en".data).2 =
      [[⟨MsgContent.parts [ContentPart.text en_food_identification,
        ContentPart.image_url ("data:image/jpeg;base64,".data ++
          b64encode [255, 216, 255])]⟩]] :=
  C9_identify_single_call ['k'] (by decide) (fun _ => Except.ok "[]".data) [255, 216, 255]
    (by decide) "en".data ⟨en_recipe_generation, en_food_identification, en_recipe_from_list⟩
    rfl

/-- Uniform task-function result shape: parsed data is a JSON array, or an
error mapping. -/
def uniform_result : TaskResult → Prop
  | TaskResult.records j => ∃ l, j = Json.arr l
  | TaskResult.errorMap _ _ => True

/-- C3 (counterexample): with a credential present, a language absent from
the prompt catalog makes `generate_recipes` raise a `KeyError` (the
`PROMPTS[language]` lookup sits outside the try block) instead of returning
the uniform error mapping. -/
theorem C3_counterexample :
    generate_recipes (some ['k']) (fun _ => Except.ok []) "Pizza".data "fr".data =
      (Except.error (PyError.keyError "fr".data), []) := rfl

/-- C3 (amended): for a language present in the catalog, no exception
escapes any task function: each returns `Except.ok` carrying either a
sequence of records (a JSON array) or a mapping with an `error` key. -/
theorem C3_amended_no_raise (env : Option Str) (gw : Gateway) (food_name language : Str)
    (ps : Prompts) (hl : PROMPTS language = some ps) (bytes : Option (List Nat))
    (foods : List Str) :
    (∃ t, (generate_recipes env gw food_name language).1 = Except.ok t ∧ uniform_result t) ∧
    (∃ t, (identify_food env gw bytes language).1 = Except.ok t ∧ uniform_result t) ∧
    (∃ t, (suggest_recipes_for_food env gw foods language).1 = Except.ok t ∧
      uniform_result t) := by
  refine ⟨?_, ?_, ?_⟩
  · cases env with
    | none => exact ⟨_, rfl, trivial⟩
    | some k =>
      by_cases hk : k = []
      · subst hk; exact ⟨_, rfl, trivial⟩
      · simp only [generate_recipes]
        rw [_initialize_llm_some hk]
        dsimp only
        rw [hl]
        dsimp only
        cases hgw : gw [⟨MsgContent.plain
            (pyFormat ps.recipe_generation "food_name".data food_name)⟩] with
        | error e => exact ⟨_, rfl, trivial⟩
        | ok content =>
          dsimp only
          cases hp : parse_json_response content with
          | none => exact ⟨_, rfl, trivial⟩
          | some j => exact ⟨TaskResult.records j, rfl, parse_result_is_arr hp⟩
  · cases env with
    | none => exact ⟨_, rfl, trivial⟩
    | some k =>
      by_cases hk : k = []
      · subst hk; exact ⟨_, rfl, trivial⟩
      · cases bytes with
        | none =>
          simp only [identify_food]
          rw [_initialize_llm_some hk]
          exact ⟨_, rfl, trivial⟩
        | some bs =>
          simp only [identify_food]
          rw [_initialize_llm_some hk]
          dsimp only [image_to_base64]
          by_cases hb : b64encode bs = []
          · rw [if_pos hb]
            exact ⟨_, rfl, trivial⟩
          · rw [if_neg hb]
            rw [hl]
            dsimp only
            cases hgw : gw [⟨MsgContent.parts [ContentPart.text ps.food_identification,
                ContentPart.image_url ("data:image/jpeg;base64,".data ++ b64encode bs)]⟩] with
            | error e => exact ⟨_, rfl, trivial⟩
            | ok content =>
              dsimp only
              cases hp : parse_json_response content with
              | none => exact ⟨_, rfl, trivial⟩
              | some j => cases j <;> exact ⟨_, rfl, _, rfl⟩
  · cases env with
    | none => exact ⟨_, rfl, trivial⟩
    | some k =>
      by_cases hk : k = []
      · subst hk; exact ⟨_, rfl, trivial⟩
      · simp only [suggest_recipes_for_food]
        rw [_initialize_llm_some hk]
        dsimp only
        rw [hl]
        dsimp only
        cases hgw : gw [⟨MsgContent.plain
            (pyFormat ps.recipe_from_list "food_name_list".data (joinComma foods))⟩] with
        | error e => exact ⟨_, rfl, trivial⟩
        | ok content =>
          dsimp only
          cases hp : parse_json_response content with
          | none => exact ⟨_, rfl, trivial⟩
          | some j => exact ⟨TaskResult.records j, rfl, parse_result_is_arr hp⟩

/-- Witness for C3 (amended) at concrete inputs. -/
theorem C3_amended_no_raise_witness :
    ∃ t, (generate_recipes (some ['k']) (fun _ => Except.ok []) "Pizza".data "en".data).1 =
      Except.ok t ∧ uniform_result t :=
  (C3_amended_no_raise (some ['k']) (fun _ => Except.ok []) "Pizza".data "en".data
    ⟨en_recipe_generation, en_food_identification, en_recipe_from_list⟩ rfl none []).1

/-- C1 (counterexample): on an unparsable reply, the task function surfaces
the original untrimmed model reply as `raw_response`, which differs from the
cleaned (and wrapped) text the claim requires. -/
theorem C1_counterexample :
    (generate_recipes (some ['k']) (fun _ => Except.ok " garbage ".data) "Pizza".data
      "en".data).1 =
      Except.ok (TaskResult.errorMap
        "Failed to parse JSON response for recipes from the model.".data
        (some " garbage ".data)) ∧
    wrapContent (cleanContent " garbage ".data) ≠ " garbage ".data := by
  exact ⟨rfl, by decide⟩

/-- C1 (amended): when parsing fails, the diagnostic printed by
`parse_json_response` is the cleaned and possibly bracket-wrapped text, while
the task function surfaces the original model reply unchanged as
`raw_response`. -/
theorem C1_amended_diag_vs_raw (s : Str) (h : parse_json_response s = none) (k : Str)
    (hk : k ≠ []) (language food_name : Str) (ps : Prompts)
    (hl : PROMPTS language = some ps) :
    (generate_recipes (some k) (fun _ => Except.ok s) food_name language).1 =
      Except.ok (TaskResult.errorMap
        "Failed to parse JSON response for recipes from the model.".data (some s)) ∧
    parse_json_response_diag s = some (wrapContent (cleanContent s)) := by
  constructor
  · simp only [generate_recipes]
    rw [_initialize_llm_some hk]
    dsimp only
    rw [hl]
    dsimp only
    rw [h]
  · unfold parse_json_response at h
    unfold parse_json_response_diag
    rw [h]

/-- Witness for C1 (amended) at a concrete unparsable reply. -/
theorem C1_amended_diag_vs_raw_witness :
    (generate_recipes (some ['k']) (fun _ => Except.ok "garbage".data) "Pizza".data
      "en".data).1 =
      Except.ok (TaskResult.errorMap
        "Failed to parse JSON response for recipes from the model.".data
        (some "garbage".data)) ∧
    parse_json_response_diag "garbage".data =
      some (wrapContent (cleanContent "garbage".data)) :=
  C1_amended_diag_vs_raw "garbage".data rfl ['k'] (by decide) "en".data "Pizza".data
    ⟨en_recipe_generation, en_food_identification, en_recipe_from_list⟩ rfl

/-- C10: whenever `parse_json_response` succeeds its value is a JSON array
(never a bare mapping or scalar), so the list-coercion branch of
`identify_food` never fires on the success path: the parsed value is
returned unchanged. -/
theorem C10_success_always_array :
    (∀ s v, parse_json_response s = some v → ∃ l, v = Json.arr l) ∧
    (∀ k gw bs language ps content v, k ≠ [] → bs ≠ [] → PROMPTS language = some ps →
      gw [⟨MsgContent.parts [ContentPart.text ps.food_identification,
        ContentPart.image_url ("data:image/jpeg;base64,".data ++ b64encode bs)]⟩] =
          Except.ok content →
      parse_json_response content = some v →
      (identify_food (some k) gw (some bs) language).1 =
        Except.ok (TaskResult.records v)) := by
  constructor
  · exact fun s v h => parse_result_is_arr h
  · intro k gw bs language ps content v hk hb hl hgw hp
    obtain ⟨l, rfl⟩ := parse_result_is_arr hp
    simp only [identify_food]
    rw [_initialize_llm_some hk]
    dsimp only [image_to_base64]
    rw [if_neg (b64encode_ne_nil hb)]
    rw [hl]
    dsimp only
    rw [hgw]
    dsimp only
    rw [hp]

/-- Witness for C10 at concrete inputs. -/
theorem C10_success_always_array_witness :
    (∃ l, Json.arr ([] : List Json) = Json.arr l) ∧
    (identify_food (some ['k']) (fun _ => Except.ok "[]".data) (some [255]) "en".data).1 =
      Except.ok (TaskResult.records (Json.arr [])) := by
  constructor
  · exact C10_success_always_array.1 "[]".data (Json.arr []) rfl
  · exact C10_success_always_array.2 ['k'] (fun _ => Except.ok "[]".data) [255] "en".data
      ⟨en_recipe_generation, en_food_identification, en_recipe_from_list⟩ "[]".data
      (Json.arr []) (by decide) (by decide) rfl rfl rfl

/-- A cleaned text that parses as a bare JSON object gets wrapped (it starts
with `{` and ends with `}`, so neither bracket test fires) and then parses as
the one-element array holding that object. -/
lemma parse_json_response_of_obj {s : Str} {m : List (Str × Json)}
    (h : json_loads (cleanContent s) = some (Json.obj m)) :
    parse_json_response s = some (Json.arr [Json.obj m]) := by
  obtain ⟨z, hz⟩ := cleanContent_pyStrip s
  obtain ⟨ch, rest, hsw, hi1, hi2⟩ := json_loads_head h
  have hch : ch = '{' := hi2.mpr ⟨m, rfl⟩
  subst hch
  cases hcc : cleanContent s with
  | nil => rw [hcc] at hsw; exact absurd hsw (by simp [skipWs, List.dropWhile])
  | cons c0 ct =>
    have hps : pyStrip z = c0 :: ct := by rw [← hz, hcc]
    have hsk : skipWs (c0 :: ct) = c0 :: ct := skipWs_of_pyStrip hps
    rw [hcc, hsk] at hsw
    obtain ⟨h0, _⟩ := List.cons.inj hsw
    subst h0
    obtain ⟨cc, hcl, hiL1, hiL2⟩ := json_loads_last ⟨z, hz⟩ h
    have hcc2 : cc = '}' := hiL2.mpr ⟨m, rfl⟩
    subst hcc2
    have hstart : startsWithL "[".data (cleanContent s) = false := by
      rw [hcc]
      rfl
    have hend : endsWithL "]".data (cleanContent s) = false := by
      cases hx : endsWithL "]".data (cleanContent s) with
      | false => rfl
      | true =>
        exfalso
        have h2 : (cleanContent s).getLast? = some ']' :=
          endsWith_single.mp (by exact hx)
        rw [hcl] at h2
        simp at h2
    unfold parse_json_response
    have hwrap : wrapContent (cleanContent s) = '[' :: (cleanContent s ++ [']']) := by
      unfold wrapContent
      rw [if_pos (by rw [hstart, hend]; rfl)]
    rw [hwrap]
    rw [hcc] at h ⊢
    exact json_loads_wrap rfl (by decide) (by decide) h

/-- The gateway reply of the no-food scenario from the specification. -/
def noFoodReply : Str :=
  ("```json\n\x7b\"food_name\":\"No food detected\",\"description\":\"empty plate\",\"confidence_score\":1\x7d\n```").data

/-- The record that the no-food scenario reply denotes. -/
def noFoodRecord : List (Str × Json) :=
  [("food_name".data, Json.str "No food detected".data),
   ("description".data, Json.str "empty plate".data),
   ("confidence_score".data, Json.num ['1'])]

/-- C5: input whose cleaned text is a single well-formed JSON object (in
particular a fenced bare object) normalizes to the one-element sequence
holding that object, and `identify_food` returns exactly that sequence when
the gateway replies with such text. -/
theorem C5_single_object :
    (∀ s m, json_loads (cleanContent s) = some (Json.obj m) →
      parse_json_response s = some (Json.arr [Json.obj m])) ∧
    (∀ k gw bs language ps s m, k ≠ [] → bs ≠ [] → PROMPTS language = some ps →
      gw [⟨MsgContent.parts [ContentPart.text ps.food_identification,
        ContentPart.image_url ("data:image/jpeg;base64,".data ++ b64encode bs)]⟩] =
          Except.ok s →
      json_loads (cleanContent s) = some (Json.obj m) →
      (identify_food (some k) gw (some bs) language).1 =
        Except.ok (TaskResult.records (Json.arr [Json.obj m]))) := by
  constructor
  · exact fun s m h => parse_json_response_of_obj h
  · intro k gw bs language ps s m hk hb hl hgw h
    simp only [identify_food]
    rw [_initialize_llm_some hk]
    dsimp only [image_to_base64]
    rw [if_neg (b64encode_ne_nil hb)]
    rw [hl]
    dsimp only
    rw [hgw]
    dsimp only
    rw [parse_json_response_of_obj h]

/-- Witness for C5: the fenced no-food scenario reply. -/
theorem C5_single_object_witness :
    parse_json_response noFoodReply = some (Json.arr [Json.obj noFoodRecord]) ∧
    (identify_food (some ['k']) (fun _ => Except.ok noFoodReply) (some [255, 216])
      "en".data).1 =
      Except.ok (TaskResult.records (Json.arr [Json.obj noFoodRecord])) := by
  constructor
  · exact C5_single_object.1 noFoodReply noFoodRecord (by rfl)
  · exact C5_single_object.2 ['k'] (fun _ => Except.ok noFoodReply) [255, 216] "en".data
      ⟨en_recipe_generation, en_food_identification, en_recipe_from_list⟩ noFoodReply
      noFoodRecord (by decide) (by decide) rfl rfl (by rfl)

/-- Cleaning a fenced text (with surrounding whitespace) strips the fences
and reduces to stripping the enclosed text. -/
lemma cleanContent_fence (t w1 w2 : Str) (hw1 : ∀ c ∈ w1, pyWs c = true)
    (hw2 : ∀ c ∈ w2, pyWs c = true) :
    cleanContent (w1 ++ ("```json".data ++ (t ++ ("```".data ++ w2)))) = pyStrip t := by
  have h1 : pyStrip (w1 ++ ("```json".data ++ (t ++ ("```".data ++ w2)))) =
      "```json".data ++ (t ++ "```".data) := by
    unfold pyStrip
    rw [dropWhile_append_of_all hw1]
    rw [show ("```json".data ++ (t ++ ("```".data ++ w2)) : Str) =
      '`' :: ("``json".data ++ (t ++ ("```".data ++ w2))) from rfl]
    rw [List.dropWhile_cons, if_neg (by decide : ¬(pyWs '`' = true))]
    rw [show ('`' :: ("``json".data ++ (t ++ ("```".data ++ w2))) : Str) =
      ("```json".data ++ (t ++ "```".data)) ++ w2 from by simp]
    rw [stripEnd_append_ws hw2]
    refine stripEnd_of_getLast (d := '`') ?_ (by decide)
    rw [show ("```json".data ++ (t ++ "```".data) : Str) =
      ("```json".data ++ t) ++ "```".data from by simp]
    exact getLast?_append_of_ne (by rfl)
  have hc1 : startsWithL ['`', '`', '`', 'j', 's', 'o', 'n']
      ("```json".data ++ (t ++ "```".data)) = true :=
    List.isPrefixOf_iff_prefix.mpr (List.prefix_append _ _)
  have hc2 : endsWithL ['`', '`', '`'] (t ++ "```".data) = true := by
    show (['`', '`', '`'] : Str).reverse.isPrefixOf (t ++ "```".data).reverse = true
    rw [List.reverse_append]
    exact List.isPrefixOf_iff_prefix.mpr (List.prefix_append _ _)
  simp only [cleanContent]
  rw [h1]
  rw [if_pos hc1]
  rw [show (7 : Nat) = ("```json".data : Str).length from rfl, List.drop_left]
  rw [if_pos hc2]
  rw [show (t ++ "```".data : Str).length - 3 = t.length from by
    rw [List.length_append, show ("```".data : Str).length = 3 from rfl]; omega, List.take_left]

/-- Cleaning does nothing but strip a text that parses as a JSON array: the
stripped text starts with `[` and ends with `]`, so no fence check fires. -/
lemma cleanContent_of_array (t : Str) (l : List Json) (h : json_loads t = some (Json.arr l)) :
    cleanContent t = pyStrip t := by
  obtain ⟨ch, rest, hsw, hi1, hi2⟩ := json_loads_head h
  have hch : ch = '[' := hi1.mpr ⟨l, rfl⟩
  subst hch
  have hpw : t.dropWhile pyWs = '[' :: rest := dropWhile_pyWs_of_jsonWs t hsw (by decide)
  obtain ⟨r, hp, hr⟩ := json_loads_spec h
  obtain ⟨pre, hpre, hspec⟩ := parseJ_consumed _ hp
  dsimp only [consumedSpec] at hspec
  obtain ⟨cc, hlast, hiL1, hiL2⟩ := hspec
  have hcc : cc = ']' := hiL1.mpr ⟨l, rfl⟩
  subst hcc
  have hstr : pyStrip t = pyStrip pre := by
    rw [hpre]
    exact pyStrip_append_ws (fun c hc => jsonWs_pyWs (skipWs_all hr c hc))
  have hDne : pre.dropWhile pyWs ≠ [] := by
    intro hx
    have hallws := List.dropWhile_eq_nil_iff.mp hx
    have hne := ne_nil_of_getLast? hlast
    have hmem : ']' ∈ pre := by
      have hgl := List.getLast?_eq_getLast pre hne
      rw [hlast] at hgl
      have h2 : pre.getLast hne = ']' := by simpa using hgl.symm
      rw [← h2]
      exact List.getLast_mem hne
    exact absurd (hallws _ hmem) (by decide)
  have hDlast : (pre.dropWhile pyWs).getLast? = some ']' := by
    cases hD : pre.dropWhile pyWs with
    | nil => exact absurd hD hDne
    | cons a ta =>
      have hsome : ((a :: ta : Str)).getLast? = some ((a :: ta).getLast (by simp)) :=
        List.getLast?_eq_getLast _ (by simp)
      have hpg : pre.getLast? = ((a :: ta : Str)).getLast? := by
        conv_lhs => rw [show pre = pre.takeWhile pyWs ++ pre.dropWhile pyWs from
          (List.takeWhile_append_dropWhile _ _).symm, hD]
        rw [List.getLast?_append, hsome]
        rfl
      rw [← hpg]
      exact hlast
  have hps : pyStrip pre = pre.dropWhile pyWs := by
    unfold pyStrip
    exact stripEnd_of_getLast hDlast (by decide)
  have hlastT : (pyStrip t).getLast? = some ']' := by
    rw [hstr, hps]
    exact hDlast
  have hheadT : (pyStrip t).head? = some '[' := by
    have hse : pyStrip t = stripEnd ('[' :: rest) := by
      unfold pyStrip
      rw [hpw]
    cases hx : pyStrip t with
    | nil => rw [hx] at hlastT; simp at hlastT
    | cons a ta =>
      have hpref := stripEnd_leading ('[' :: rest)
      rw [← hse, hx] at hpref
      have hh := prefix_head hpref rfl
      simp only [List.head?_cons, Option.some.injEq] at hh
      subst hh
      rfl
  have hsw1 : startsWithL "```json".data (pyStrip t) = false := by
    cases hx : startsWithL "```json".data (pyStrip t) with
    | false => rfl
    | true =>
      exfalso
      have hh := isPrefixOf_head (a := '`') (p := "``json".data) (s := pyStrip t) (by exact hx)
      rw [hheadT] at hh
      simp at hh
  have hsw2 : endsWithL "```".data (pyStrip t) = false := by
    cases hx : endsWithL "```".data (pyStrip t) with
    | false => rfl
    | true =>
      exfalso
      have hx2 : (('`' :: "``".data : Str)).isPrefixOf (pyStrip t).reverse = true := by
        exact hx
      have hh := isPrefixOf_head hx2
      rw [List.head?_reverse] at hh
      rw [hlastT] at hh
      simp at hh
  have hn1 : ¬(startsWithL ['`', '`', '`', 'j', 's', 'o', 'n'] (pyStrip t) = true) := by
    intro hx
    have hx' : startsWithL "```json".data (pyStrip t) = true := hx
    rw [hsw1] at hx'
    exact Bool.false_ne_true hx'
  have hn2 : ¬(endsWithL ['`', '`', '`'] (pyStrip t) = true) := by
    intro hx
    have hx' : endsWithL "```".data (pyStrip t) = true := hx
    rw [hsw2] at hx'
    exact Bool.false_ne_true hx'
  simp only [cleanContent]
  rw [if_neg hn1, if_neg hn2]
  exact pyStrip_idem t

/-- C6: for a well-formed JSON array text, the markdown-fenced form (with any
surrounding whitespace) normalizes to exactly the same value as the unfenced
text. -/
theorem C6_fence_invariance (t w1 w2 : Str) (hw1 : ∀ c ∈ w1, pyWs c = true)
    (hw2 : ∀ c ∈ w2, pyWs c = true) (l : List Json) (h : json_loads t = some (Json.arr l)) :
    parse_json_response (w1 ++ ("```json".data ++ (t ++ ("```".data ++ w2)))) =
      parse_json_response t := by
  unfold parse_json_response
  rw [cleanContent_fence t w1 w2 hw1 hw2, cleanContent_of_array t l h]

/-- Witness for C6 at a concrete fenced array. -/
theorem C6_fence_invariance_witness :
    parse_json_response
      (" ".data ++ ("```json".data ++ ("[1, 2]".data ++ ("```".data ++ "\n".data)))) =
      parse_json_response "[1, 2]".data :=
  C6_fence_invariance "[1, 2]".data " ".data "\n".data (by decide) (by decide)
    [Json.num ['1'], Json.num ['2']] (by rfl)
